import Mathlib

/-!
Verification of the simulation core of the `thomasmmarshall/DOOM` TypeScript
engine, shallowly embedded in Lean 4.

JavaScript `number` values that the code keeps exact (integers, and
multiples of 2 ^ (-16) produced by `FixedToFloat`, all far below 2 ^ 53)
are modelled as `Int` or `ℚ`; the 32-bit truncation performed by the
bitwise operators (`| 0`, `<<`, `>>`, `^`, `&`) is modelled explicitly by
`toInt32`.  Fallible code (`throw`) is modelled with `Option`.
`Int` division `/` and remainder `%` below are Lean's Euclidean
operations; for the positive power-of-two divisors used here they agree
with the floor semantics of arithmetic shifts.
-/

namespace JsNum

/-- JavaScript `ToInt32`: wrap an integer into `[-2^31, 2^31)`
(two's-complement). Applied by every bitwise operator. -/
def toInt32 (n : Int) : Int :=
  (n + 2 ^ 31) % 2 ^ 32 - 2 ^ 31

/-- The unsigned 32-bit representative of an integer (the bit pattern
`ToUint32` shares with `ToInt32`). -/
def toUint32 (n : Int) : Nat :=
  (n % 2 ^ 32).toNat

/-- Truncation toward zero of a rational, as JavaScript `ToInt32` first
truncates the fractional part of a float. -/
def jsTrunc (q : ℚ) : Int :=
  q.num.tdiv (q.den : Int)

/-- JavaScript `x | 0` on a float value: truncate toward zero, then wrap
to 32 bits. -/
def orZero (q : ℚ) : Int :=
  toInt32 (jsTrunc q)

/-- JavaScript `x >> k` (sign-propagating right shift): wrap to 32 bits,
then arithmetic shift, i.e. floor division by `2 ^ k` (Euclidean `/`
coincides with floor for this positive divisor). -/
def shr32 (x : Int) (k : Nat) : Int :=
  toInt32 x / 2 ^ k

/-- JavaScript `x & (2^k - 1)` for a 32-bit operand: masking with a
low-bit mask equals the nonnegative remainder mod `2 ^ k` in
two's-complement arithmetic. -/
def andMask (x : Int) (k : Nat) : Int :=
  toInt32 x % 2 ^ k

/-- JavaScript `a ^ b`: bitwise xor of the two 32-bit patterns,
read back as a signed 32-bit value. -/
def xor32 (a b : Int) : Int :=
  toInt32 ((toUint32 a ^^^ toUint32 b : Nat) : Int)

theorem toInt32_of_range {n : Int} (h1 : -2 ^ 31 ≤ n) (h2 : n < 2 ^ 31) :
    toInt32 n = n := by
  unfold toInt32
  omega

theorem xor32_zero (a : Int) : xor32 a 0 = toInt32 a := by
  have h0 : toUint32 (0 : Int) = 0 := by decide
  unfold xor32
  rw [h0, Nat.xor_zero]
  unfold toUint32 toInt32
  rw [Int.toNat_of_nonneg (Int.emod_nonneg a (by norm_num))]
  omega

theorem jsTrunc_intCast (n : Int) : jsTrunc (n : ℚ) = n := by
  unfold jsTrunc
  rw [Rat.num_intCast, Rat.den_intCast]
  exact Int.tdiv_one n

end JsNum

/-! ## `src/core/fixed.ts` — 16.16 fixed-point arithmetic -/

namespace FixedM

open JsNum

def FRACBITS : Nat := 16

def FRACUNIT : Int := 2 ^ FRACBITS

/-- `IntToFixed(x)`: `(x << FRACBITS) | 0`.  The `<<` operator first
wraps its operand to 32 bits, shifts, and wraps again; `| 0` is then the
identity. -/
def IntToFixed (x : ℚ) : Int :=
  toInt32 (toInt32 (jsTrunc x) * FRACUNIT)

/-- `FixedToInt(x)`: `x >> FRACBITS` (truncating, sign-propagating). -/
def FixedToInt (x : Int) : Int :=
  shr32 x FRACBITS

/-- `FixedToFloat(x)`: `x / FRACUNIT`; exact in binary floating point for
the 32-bit fixed values involved. -/
def FixedToFloat (x : Int) : ℚ :=
  (x : ℚ) / (FRACUNIT : ℚ)

/-- `FloatToFixed(x)`: `(x * FRACUNIT) | 0`. -/
def FloatToFixed (x : ℚ) : Int :=
  orZero (x * (FRACUNIT : ℚ))

/-- `FixedMul(a, b)`: `((a * b) / FRACUNIT) | 0`; the double-width
product is exact in the 53-bit float mantissa. -/
def FixedMul (a b : Int) : Int :=
  orZero (((a : ℚ) * (b : ℚ)) / (FRACUNIT : ℚ))

/-- `FixedDiv2(a, b)`: throws on `b === 0`, else `((a * FRACUNIT) / b) | 0`. -/
def FixedDiv2 (a b : Int) : Option Int :=
  if b = 0 then none
  else some (orZero (((a : ℚ) * (FRACUNIT : ℚ)) / (b : ℚ)))

/-- `FixedDiv(a, b)`: overflow guard `(Math.abs(a) >> 14) >= Math.abs(b)`
saturates to the int32 extreme whose sign matches `a ^ b`; otherwise
delegates to `FixedDiv2`. -/
def FixedDiv (a b : Int) : Option Int :=
  let absA := shr32 (Int.natAbs a) 14
  let absB : Int := Int.natAbs b
  if absB ≤ absA then
    some (if xor32 a b < 0 then -2147483648 else 2147483647)
  else
    FixedDiv2 a b

end FixedM

/-! ## `src/core/tables.ts` — trigonometric lookup tables -/

namespace TablesM

open JsNum

def FINEANGLES : Nat := 8192

def FINEMASK : Nat := FINEANGLES - 1

def ANGLETOFINESHIFT : Nat := 19

/-- Length of the `finesine` array: `new Array((5 * FINEANGLES) / 4)`. -/
def finesineLength : Nat := 5 * FINEANGLES / 4

/-- Index computed by `FineSine`: `(angle >> ANGLETOFINESHIFT) & FINEMASK`
(`FINEMASK = 2^13 - 1`). -/
def fineSineIndex (angle : Int) : Int :=
  andMask (shr32 angle ANGLETOFINESHIFT) 13

/-- Index computed by `FineCosine`:
`((angle >> ANGLETOFINESHIFT) + FINEANGLES / 4) & FINEMASK`. -/
def fineCosineIndex (angle : Int) : Int :=
  andMask (shr32 angle ANGLETOFINESHIFT + (FINEANGLES : Int) / 4) 13

end TablesM

/-! ## Theorems for the fixed-point and table claims -/

open JsNum FixedM TablesM

/-- C1 counterexample: `FixedDiv(1, 0)` does not raise the
division-by-zero error; it silently saturates to `2147483647`. -/
theorem FixedDiv_one_zero_saturates : FixedDiv 1 0 = some 2147483647 := by
  decide

/-- C1 (amended): for every int32 value `a` other than `-2^31`,
`FixedDiv(a, 0)` silently saturates to the sign-matched int32 extreme
(`-2147483648` for negative `a`, else `2147483647`) and never raises;
the division-by-zero failure lives in `FixedDiv2`, which `FixedDiv`
reaches with a zero divisor only for `a = -2^31`. -/
theorem FixedDiv_zero_divisor_saturates (a : Int)
    (h1 : -2 ^ 31 < a) (h2 : a < 2 ^ 31) :
    FixedDiv a 0 = some (if a < 0 then -2147483648 else 2147483647) ∧
      FixedDiv2 a 0 = none := by
  refine ⟨?_, by unfold FixedDiv2; simp⟩
  have habs : (Int.natAbs a : Int) < 2 ^ 31 := by omega
  have hguard : (Int.natAbs (0 : Int) : Int) ≤ shr32 (Int.natAbs a) 14 := by
    unfold shr32 toInt32
    simp only [Int.natAbs_zero, Int.ofNat_zero]
    omega
  have hxor : xor32 a 0 = a := by
    rw [xor32_zero]
    exact toInt32_of_range (le_of_lt h1) h2
  unfold FixedDiv
  simp only [hxor, if_pos hguard]

/-- C1 witness for `FixedDiv_zero_divisor_saturates` at `a = -7`. -/
theorem FixedDiv_zero_divisor_saturates_concrete :
    FixedDiv (-7) 0 = some (if (-7 : Int) < 0 then -2147483648 else 2147483647) ∧
      FixedDiv2 (-7) 0 = none :=
  FixedDiv_zero_divisor_saturates (-7) (by norm_num) (by norm_num)

/-- C3 counterexample: the fixed-point round trip is not the identity on
all integers; `32768` wraps to `-32768`. -/
theorem roundTrip_fails_at_32768 :
    FixedToInt (IntToFixed ((32768 : Int) : ℚ)) = -32768 := by
  unfold FixedToInt IntToFixed shr32
  rw [jsTrunc_intCast]
  unfold toInt32 FRACUNIT FRACBITS
  decide

/-- C3 (amended): for every integer `n` with `-2^15 ≤ n < 2^15` (the
range whose 16.16 encoding fits an int32), the truncating round trip is
the identity: `FixedToInt(IntToFixed(n)) = n`. -/
theorem roundTrip_id (n : Int) (h1 : -2 ^ 15 ≤ n) (h2 : n < 2 ^ 15) :
    FixedToInt (IntToFixed (n : ℚ)) = n := by
  unfold FixedToInt IntToFixed shr32
  rw [jsTrunc_intCast]
  unfold toInt32 FRACUNIT FRACBITS
  omega

/-- C3 witness for `roundTrip_id` at `n = -129`. -/
theorem roundTrip_id_concrete : FixedToInt (IntToFixed ((-129 : Int) : ℚ)) = -129 :=
  roundTrip_id (-129) (by norm_num) (by norm_num)

/-- C10: for every 32-bit angle (indeed for every integer angle value),
the table indices computed by `FineSine` and `FineCosine` are
nonnegative and strictly below the sine table's length of `10240`
entries, so the lookups stay in bounds. -/
theorem fine_index_in_bounds (angle : Int) :
    (0 ≤ fineSineIndex angle ∧ fineSineIndex angle < (finesineLength : Int)) ∧
      (0 ≤ fineCosineIndex angle ∧ fineCosineIndex angle < (finesineLength : Int)) := by
  unfold fineSineIndex fineCosineIndex andMask shr32 toInt32 finesineLength
  unfold FINEANGLES ANGLETOFINESHIFT
  norm_num
  omega

/-! ## `src/core/ticker.ts` — fixed-timestep game ticker -/

namespace TickerM

def TICRATE : ℚ := 35

/-- `TICK_DURATION = 1000 / TICRATE` (~28.57 ms). -/
def TICK_DURATION : ℚ := 1000 / TICRATE

/-- The drain loop of `GameTicker.tick`:
`while (accumulator >= TICK_DURATION && ticksThisFrame < maxTicks)`,
modelled by recursion on the remaining tick allowance
(`maxTicks - ticksThisFrame`). Returns the number of ticks run and the
accumulator after draining. -/
def runTicks : ℚ → Nat → Nat × ℚ
  | acc, 0 => (0, acc)
  | acc, allowance + 1 =>
    if TICK_DURATION ≤ acc then
      let r := runTicks (acc - TICK_DURATION) allowance
      (r.1 + 1, r.2)
    else
      (0, acc)

/-- One frame notification of `GameTicker.tick` with elapsed real time
`delta`: accumulate, drain up to `maxTicks = 4` ticks, and reset the
accumulator to zero if it still exceeds `TICK_DURATION * maxTicks`.
Returns the number of logical ticks executed and the new accumulator. -/
def tickFrame (acc delta : ℚ) : Nat × ℚ :=
  let acc1 := acc + delta
  let r := runTicks acc1 4
  (r.1, if TICK_DURATION * 4 < r.2 then 0 else r.2)

theorem runTicks_le (acc : ℚ) (n : Nat) : (runTicks acc n).1 ≤ n := by
  induction n generalizing acc with
  | zero => simp [runTicks]
  | succ m ih =>
    unfold runTicks
    by_cases h : TICK_DURATION ≤ acc
    · simpa [h] using ih (acc - TICK_DURATION)
    · simp [h]

end TickerM

open TickerM

/-- C8: on every frame notification, at most `maxTicks = 4` logical
ticks are executed no matter how much real time has accumulated, and
whenever the accumulator still exceeds four tick durations after
draining it is reset to exactly zero instead of being carried over (so
the carried-over accumulator never exceeds four tick durations). -/
theorem tickFrame_cap (acc delta : ℚ) :
    (tickFrame acc delta).1 ≤ 4 ∧
      (TICK_DURATION * 4 < (runTicks (acc + delta) 4).2 →
        (tickFrame acc delta).2 = 0) ∧
      (tickFrame acc delta).2 ≤ TICK_DURATION * 4 := by
  refine ⟨runTicks_le (acc + delta) 4, ?_, ?_⟩
  · intro h
    simp [tickFrame, h]
  · unfold tickFrame
    by_cases h : TICK_DURATION * 4 < (runTicks (acc + delta) 4).2
    · simp only [h, if_true]
      unfold TICK_DURATION TICRATE
      norm_num
    · simpa [h] using le_of_not_lt h

/-- C8 witness for `tickFrame_cap` at a host stall of 1000 ms. -/
theorem tickFrame_cap_concrete :
    (tickFrame 0 1000).1 ≤ 4 ∧
      (TICK_DURATION * 4 < (runTicks (0 + 1000) 4).2 →
        (tickFrame 0 1000).2 = 0) ∧
      (tickFrame 0 1000).2 ≤ TICK_DURATION * 4 :=
  tickFrame_cap 0 1000

/-! ## Sector state shared by the door, platform and trigger systems.

`MapSector` (`src/level/types.ts`) also carries texture names, light
level and a special code, which none of the verified systems read; the
fields used by doors, platforms and triggers are kept. Heights start as
parsed 16-bit integers but become arbitrary (exact) floats once a
machine writes `FixedToFloat` results back. -/

structure SectorH where
  floorheight : ℚ
  ceilingheight : ℚ
  tag : Int
  deriving DecidableEq, Repr

/-! ## `src/sectors/PlatformSystem.ts` — moving platforms -/

namespace PlatM

open JsNum FixedM

inductive PlatformState where
  | UP | DOWN | WAITING | IN_STASIS
  deriving DecidableEq, Repr

inductive PlatformType where
  | PERPETUAL_RAISE | RAISE_AND_WAIT | RAISE_TO_NEXT | LOWER_AND_WAIT
  deriving DecidableEq, Repr

/-- `PlatformThinker`. `speed` is a plain JS number (the engine only
ever passes integers); heights are 16.16 fixed values. -/
structure PlatformThinker where
  ptype : PlatformType
  state : PlatformState
  speed : ℚ
  lowHeight : Int
  highHeight : Int
  waitTimer : Int
  waitTime : Int
  deriving DecidableEq, Repr

/-- `FixedToFloat` applied to a possibly fractional intermediate value
(TS passes plain numbers): `x / FRACUNIT`. -/
def fixedToFloatQ (x : ℚ) : ℚ := x / (FRACUNIT : ℚ)

/-- `PlatformManager.activatePlatform` restricted to one sector: fails
if a platform is already active there, else installs a new `UP`
platform rising 64 units. -/
def activatePlatform (sec : SectorH) (existing : Option PlatformThinker)
    (ptype : PlatformType) (speed : ℚ) :
    Bool × SectorH × Option PlatformThinker :=
  match existing with
  | some p => (false, sec, some p)
  | none =>
    let currentHeight := IntToFixed sec.floorheight
    let lowHeight := currentHeight
    let highHeight := currentHeight + IntToFixed ((64 : Int) : ℚ)
    (true, sec,
      some { ptype := ptype, state := PlatformState.UP, speed := speed,
             lowHeight := lowHeight, highHeight := highHeight,
             waitTimer := 0, waitTime := 105 })

/-- `PlatformManager.updatePlatform`: one tick of one platform. The
boolean records whether the platform deleted itself from the active
map. -/
def updatePlatform (sec : SectorH) (p : PlatformThinker) :
    SectorH × PlatformThinker × Bool :=
  let currentHeight := IntToFixed sec.floorheight
  match p.state with
  | PlatformState.UP =>
    let newUpHeight : ℚ := (currentHeight : ℚ) + p.speed
    if (p.highHeight : ℚ) ≤ newUpHeight then
      let newHeight := FixedToFloat p.highHeight
      ({ sec with floorheight := newHeight },
        { p with state := PlatformState.WAITING, waitTimer := p.waitTime },
        false)
    else
      let newHeight := fixedToFloatQ newUpHeight
      ({ sec with floorheight := newHeight }, p, false)
  | PlatformState.DOWN =>
    let newDownHeight : ℚ := (currentHeight : ℚ) - p.speed
    if newDownHeight ≤ (p.lowHeight : ℚ) then
      let newHeight := FixedToFloat p.lowHeight
      let sec1 := { sec with floorheight := newHeight }
      if p.ptype = PlatformType.PERPETUAL_RAISE then
        (sec1,
          { p with state := PlatformState.WAITING, waitTimer := p.waitTime },
          false)
      else
        (sec1, p, true)
    else
      let newHeight := fixedToFloatQ newDownHeight
      ({ sec with floorheight := newHeight }, p, false)
  | PlatformState.WAITING =>
    let p1 := { p with waitTimer := p.waitTimer - 1 }
    if p1.waitTimer ≤ 0 then
      let atTop := p.highHeight ≤ currentHeight
      (sec,
        { p1 with state := if atTop then PlatformState.DOWN else PlatformState.UP },
        false)
    else
      (sec, p1, false)
  | PlatformState.IN_STASIS => (sec, p, false)

/-- One pass of `updatePlatforms` projected to a single sector: run the
update if a platform is active and drop it from the map if it deleted
itself. Platforms of other sectors read and write only their own
sector's state, so the projection is faithful. -/
def stepPlatform : SectorH × Option PlatformThinker →
    SectorH × Option PlatformThinker
  | (sec, none) => (sec, none)
  | (sec, some p) =>
    let r := updatePlatform sec p
    (r.1, if r.2.2 then none else some r.2.1)

/-- `n` ticks of the platform manager on one sector. -/
def platIter : Nat → SectorH × Option PlatformThinker →
    SectorH × Option PlatformThinker
  | 0, st => st
  | n + 1, st => platIter n (stepPlatform st)

theorem updatePlatform_perpetual (sec : SectorH) (p : PlatformThinker)
    (h : p.ptype = PlatformType.PERPETUAL_RAISE) :
    (updatePlatform sec p).2.2 = false ∧
      (updatePlatform sec p).2.1.ptype = PlatformType.PERPETUAL_RAISE := by
  unfold updatePlatform
  cases hs : p.state <;> simp only [] <;>
    repeat' first
      | rw [if_pos (by assumption)]
      | split
      | simp [h]

theorem platIter_perpetual (n : Nat) (sec : SectorH) (p : PlatformThinker)
    (h : p.ptype = PlatformType.PERPETUAL_RAISE) :
    ∃ sec2 p2, platIter n (sec, some p) = (sec2, some p2) ∧
      p2.ptype = PlatformType.PERPETUAL_RAISE := by
  induction n generalizing sec p with
  | zero => exact ⟨sec, p, rfl, h⟩
  | succ m ih =>
    have hstep := updatePlatform_perpetual sec p h
    unfold platIter
    simp only [stepPlatform, hstep.1, Bool.false_eq_true, if_false]
    exact ih _ _ hstep.2

end PlatM

open PlatM

/-- C9: a platform of the perpetual kind, once activated on a sector, is
never removed from the platform manager's active set: the activation
succeeds and after any number of per-tick platform updates the sector
still has an active platform. -/
theorem perpetual_platform_persists (sec : SectorH) (n : Nat) :
    (activatePlatform sec none PlatformType.PERPETUAL_RAISE 1).1 = true ∧
      ((platIter n ((activatePlatform sec none PlatformType.PERPETUAL_RAISE 1).2.1,
        (activatePlatform sec none PlatformType.PERPETUAL_RAISE 1).2.2)).2).isSome
        = true := by
  refine ⟨rfl, ?_⟩
  obtain ⟨sec2, p2, heq, -⟩ :=
    platIter_perpetual n sec
      { ptype := PlatformType.PERPETUAL_RAISE, state := PlatformState.UP,
        speed := 1, lowHeight := IntToFixed sec.floorheight,
        highHeight := IntToFixed sec.floorheight + IntToFixed ((64 : Int) : ℚ),
        waitTimer := 0, waitTime := 105 } rfl
  simpa [activatePlatform] using congrArg (fun st => st.2.isSome) heq

/-! ## `src/sectors/DoorSystem.ts` — doors -/

namespace DoorM

open JsNum FixedM

inductive DoorState where
  | CLOSED | OPENING | OPEN | WAITING | CLOSING
  deriving DecidableEq, Repr

inductive DoorType where
  | NORMAL | OPEN_STAY | CLOSE | RAISE | BLAZING
  deriving DecidableEq, Repr

/-- `DoorThinker`. `speed` is a plain JS number set to 2, 4 or 8 by
`activateDoor`; heights are 16.16 fixed values. -/
structure DoorThinker where
  dtype : DoorType
  state : DoorState
  speed : Int
  topHeight : Int
  bottomHeight : Int
  waitTimer : Int
  deriving DecidableEq, Repr

/-- `DoorManager.activateDoor` restricted to one sector: fails if a door
is already active there, else installs an `OPENING` door whose target is
128 units above the floor. -/
def activateDoor (sec : SectorH) (existing : Option DoorThinker)
    (dtype : DoorType) : Bool × SectorH × Option DoorThinker :=
  match existing with
  | some d => (false, sec, some d)
  | none =>
    let bottomHeight := IntToFixed sec.floorheight
    let topHeight := IntToFixed (sec.floorheight + 128)
    let speed : Int :=
      if dtype = DoorType.RAISE then 4
      else if dtype = DoorType.BLAZING then 8
      else 2
    (true, sec,
      some { dtype := dtype, state := DoorState.OPENING, speed := speed,
             topHeight := topHeight, bottomHeight := bottomHeight,
             waitTimer := 0 })

/-- `DoorManager.updateDoor`: one tick of one door. The boolean records
whether the door deleted itself from the active map. -/
def updateDoor (sec : SectorH) (d : DoorThinker) :
    SectorH × DoorThinker × Bool :=
  let currentHeight := IntToFixed sec.ceilingheight
  match d.state with
  | DoorState.OPENING =>
    let newOpenHeight := currentHeight + d.speed
    if d.topHeight ≤ newOpenHeight then
      let newHeight := FixedToFloat d.topHeight
      let sec1 := { sec with ceilingheight := newHeight }
      if d.dtype = DoorType.OPEN_STAY then
        (sec1, { d with state := DoorState.OPEN }, true)
      else
        (sec1, { d with state := DoorState.WAITING, waitTimer := 150 }, false)
    else
      let newHeight := FixedToFloat newOpenHeight
      ({ sec with ceilingheight := newHeight }, d, false)
  | DoorState.WAITING =>
    let d1 := { d with waitTimer := d.waitTimer - 1 }
    if d1.waitTimer ≤ 0 then
      (sec, { d1 with state := DoorState.CLOSING }, false)
    else
      (sec, d1, false)
  | DoorState.CLOSING =>
    let newCloseHeight := currentHeight - d.speed
    if newCloseHeight ≤ d.bottomHeight then
      let newHeight := FixedToFloat d.bottomHeight
      ({ sec with ceilingheight := newHeight },
        { d with state := DoorState.CLOSED }, true)
    else
      let newHeight := FixedToFloat newCloseHeight
      ({ sec with ceilingheight := newHeight }, d, false)
  | DoorState.CLOSED => (sec, d, false)
  | DoorState.OPEN => (sec, d, false)

/-- One pass of `updateDoors` projected to a single sector: run the
update if a door is active, drop it if it deleted itself or if it is a
fully `CLOSED` door of type `CLOSE` (the extra deletion in
`updateDoors`). -/
def stepDoor : SectorH × Option DoorThinker → SectorH × Option DoorThinker
  | (sec, none) => (sec, none)
  | (sec, some d) =>
    let r := updateDoor sec d
    let removed := r.2.2 ||
      (r.2.1.state = DoorState.CLOSED && r.2.1.dtype = DoorType.CLOSE)
    (r.1, if removed then none else some r.2.1)

/-- `n` ticks of the door manager on one sector. -/
def doorIter : Nat → SectorH × Option DoorThinker →
    SectorH × Option DoorThinker
  | 0, st => st
  | n + 1, st => doorIter n (stepDoor st)

/-- The concrete C2 scenario: a sector whose ceiling starts at the
floor, door activated with the default `NORMAL` type (speed 2, opening
target 128 units above the floor). -/
def c2Sector : SectorH := { floorheight := 0, ceilingheight := 0, tag := 0 }

def c2Activation : Bool × SectorH × Option DoorThinker :=
  activateDoor c2Sector none DoorType.NORMAL

def c2After64 : SectorH × Option DoorThinker :=
  doorIter 64 (c2Activation.2.1, c2Activation.2.2)

end DoorM

open DoorM

/-- The door installed by `c2Activation`. -/
def c2Door : DoorThinker :=
  { dtype := DoorType.NORMAL, state := DoorState.OPENING, speed := 2,
    topHeight := IntToFixed ((0 : ℚ) + 128), bottomHeight := IntToFixed 0,
    waitTimer := 0 }

/-- The stalled sector: ceiling raised by only `2 / 65536` map units. -/
def c2Stall : SectorH :=
  { floorheight := 0, ceilingheight := FixedToFloat 2, tag := 0 }

theorem jsTrunc_of_nonneg_lt_one {q : ℚ} (h0 : 0 ≤ q) (h1 : q < 1) :
    jsTrunc q = 0 := by
  unfold jsTrunc
  have hn : 0 ≤ q.num := Rat.num_nonneg.mpr h0
  have hdpos : (0 : ℚ) < (q.den : ℚ) := by exact_mod_cast q.den_pos
  have hq : (q.num : ℚ) / (q.den : ℚ) = q := Rat.num_div_den q
  have hlt : (q.num : ℚ) < (q.den : ℚ) := by
    have := (div_lt_one hdpos).mp (hq ▸ h1)
    exact this
  exact Int.tdiv_eq_zero_of_lt hn (by exact_mod_cast hlt)

theorem c2_hA : c2Activation = (true, c2Sector, some c2Door) := by
  rfl

theorem c2_IntToFixed_top : IntToFixed ((0 : ℚ) + 128) = 8388608 := by
  rw [show ((0 : ℚ) + 128) = ((128 : Int) : ℚ) by norm_num]
  unfold IntToFixed
  rw [jsTrunc_intCast]
  decide

theorem c2_IntToFixed_zero : IntToFixed (0 : ℚ) = 0 := by
  rw [show (0 : ℚ) = ((0 : Int) : ℚ) by norm_num]
  unfold IntToFixed
  rw [jsTrunc_intCast]
  decide

theorem c2_IntToFixed_stall : IntToFixed (FixedToFloat 2) = 0 := by
  unfold IntToFixed
  rw [jsTrunc_of_nonneg_lt_one (by norm_num [FixedToFloat, FRACUNIT, FRACBITS])
    (by norm_num [FixedToFloat, FRACUNIT, FRACBITS])]
  decide

theorem c2_upd_fresh : updateDoor c2Sector c2Door = (c2Stall, c2Door, false) := by
  unfold updateDoor
  simp only [c2Sector, c2Door, c2Stall, c2_IntToFixed_top, c2_IntToFixed_zero]
  norm_num

theorem c2_upd_stall : updateDoor c2Stall c2Door = (c2Stall, c2Door, false) := by
  unfold updateDoor
  simp only [c2Stall, c2Door, c2_IntToFixed_top, c2_IntToFixed_stall]
  norm_num

theorem c2_step_fresh :
    stepDoor (c2Sector, some c2Door) = (c2Stall, some c2Door) := by
  simp only [stepDoor, c2_upd_fresh]
  rfl

theorem c2_step_stall :
    stepDoor (c2Stall, some c2Door) = (c2Stall, some c2Door) := by
  simp only [stepDoor, c2_upd_stall]
  rfl

theorem c2_doorIter_fix (n : Nat) {st : SectorH × Option DoorThinker}
    (h : stepDoor st = st) : doorIter n st = st := by
  induction n with
  | zero => rfl
  | succ m ih => unfold doorIter; rw [h]; exact ih

/-- C2 (code bug): the door update mixes units — it adds the raw speed
`2` to the 16.16 fixed ceiling height and truncates the stored float
height back through `IntToFixed` every tick — so on the claim's scenario
(ceiling starting at the floor, speed 2, target `floor + 128`) the
ceiling is stuck at `2 / 65536` map units above the floor and the door
is still `OPENING` after 64 ticks, instead of reaching `floor + 128` and
leaving `OPENING`.  The claim's second part does hold: activating the
sector again while the door is active returns `false`.  This theorem
evaluates the embedded code on that failing input. -/
theorem door_stalls_after_64_ticks :
    c2Activation.1 = true ∧
      c2After64.1.ceilingheight = 2 / 65536 ∧
      ¬ c2After64.1.ceilingheight = 128 ∧
      (c2After64.2.map DoorThinker.state) = some DoorState.OPENING ∧
      (activateDoor c2After64.1 c2After64.2 DoorType.NORMAL).1 = false := by
  have h64 : c2After64 = (c2Stall, some c2Door) := by
    show doorIter 64 (c2Activation.2.1, c2Activation.2.2) = _
    rw [c2_hA]
    show doorIter 63 (stepDoor (c2Sector, some c2Door)) = _
    rw [c2_step_fresh]
    exact c2_doorIter_fix 63 c2_step_stall
  rw [h64]
  refine ⟨rfl, ?_, ?_, rfl, rfl⟩
  · show FixedToFloat 2 = 2 / 65536
    norm_num [FixedToFloat, FRACUNIT, FRACBITS]
  · show ¬ FixedToFloat 2 = 128
    norm_num [FixedToFloat, FRACUNIT, FRACBITS]

/-! ## `src/physics/collision.ts` (part_016) — movement and collision -/

namespace CollisionM

open JsNum FixedM

def ML_BLOCKING : Nat := 1

def ML_TWOSIDED : Nat := 4

/-- `MAX_STEP_HEIGHT = 24` DOOM units. -/
def MAX_STEP_HEIGHT : ℚ := 24

/-- `MapLineDef`: the fields read by collision and triggers (`flags`
also carries the remaining `ML_*` bits). -/
structure LineDefM where
  v1 : Nat
  v2 : Nat
  flags : Nat
  special : Int
  tag : Int
  sidenum0 : Int
  sidenum1 : Int
  deriving DecidableEq, Repr

/-- `MapSideDef` restricted to the `sector` reference, the only field
the verified systems read. -/
structure SideDefM where
  sector : Int
  deriving DecidableEq, Repr

/-- `MapData` restricted to the arrays the collision and trigger systems
read. Vertex coordinates are parsed 16-bit integers. -/
structure MapDataM where
  vertexes : List (Int × Int)
  linedefs : List LineDefM
  sidedefs : List SideDefM
  sectors : List SectorH
  deriving DecidableEq, Repr

/-- `Mobj`: the numeric fields read and written by `applyCollision`. -/
structure Mobj where
  x : Int
  y : Int
  z : Int
  momx : Int
  momy : Int
  momz : Int
  radius : Int
  height : Int
  floorz : Int
  ceilingz : Int
  deriving DecidableEq, Repr

/-- `circleLineIntersection`. `lineLength = sqrt(lx*lx + ly*ly)` enters
only through its square (the `=== 0` guard and the divisor
`lineLength * lineLength`), and the final test
`sqrt(distX^2 + distY^2) < radius` on the nonnegative distance holds iff
the radius is positive and the squares compare, so the function is
expressed square-for-square in exact arithmetic. -/
def circleLineIntersection (cx cy radius x1 y1 x2 y2 : ℚ) : Bool :=
  let dx := cx - x1
  let dy := cy - y1
  let lx := x2 - x1
  let ly := y2 - y1
  let len2 := lx * lx + ly * ly
  if len2 = 0 then false
  else
    let t := max 0 (min 1 ((dx * lx + dy * ly) / len2))
    let closestX := x1 + t * lx
    let closestY := y1 + t * ly
    let distX := cx - closestX
    let distY := cy - closestY
    decide (0 < radius ∧ distX * distX + distY * distY < radius * radius)

/-- `checkWallCollision`: true iff the bounding circle at `(newX, newY)`
intersects no blocking linedef (one-sided walls always block, two-sided
walls block only with `ML_BLOCKING`). Out-of-range vertex indices (which
would crash in TS) default to the origin; callers supply in-range maps. -/
def checkWallCollision (m : Mobj) (newX newY : Int) (md : MapDataM) : Bool :=
  let x := FixedToFloat newX
  let y := FixedToFloat newY
  let radius := FixedToFloat m.radius
  md.linedefs.all fun ld =>
    let v1 := md.vertexes.getD ld.v1 (0, 0)
    let v2 := md.vertexes.getD ld.v2 (0, 0)
    let blocking := decide (ld.flags &&& ML_BLOCKING ≠ 0)
    let twoSided := decide (ld.flags &&& ML_TWOSIDED ≠ 0)
    if !twoSided || blocking then
      !circleLineIntersection x y radius (v1.1 : ℚ) (v1.2 : ℚ) (v2.1 : ℚ) (v2.2 : ℚ)
    else
      true

/-- The linedefs bounding a sector, as collected by
`findSectorAtPoint`'s inner loop: lines whose front or back sidedef
references the sector. -/
def sectorLinesFor (md : MapDataM) (sectorIdx : Nat) : List (ℚ × ℚ × ℚ × ℚ) :=
  md.linedefs.filterMap fun ld =>
    let frontSide := ld.sidenum0
    let backSide := ld.sidenum1
    let v1 := md.vertexes.getD ld.v1 (0, 0)
    let v2 := md.vertexes.getD ld.v2 (0, 0)
    if frontSide ≠ -1 ∧
        (md.sidedefs.getD frontSide.toNat { sector := -1 }).sector = (sectorIdx : Int) then
      some ((v1.1 : ℚ), (v1.2 : ℚ), (v2.1 : ℚ), (v2.2 : ℚ))
    else if backSide ≠ -1 ∧
        (md.sidedefs.getD backSide.toNat { sector := -1 }).sector = (sectorIdx : Int) then
      some ((v1.1 : ℚ), (v1.2 : ℚ), (v2.1 : ℚ), (v2.2 : ℚ))
    else
      none

/-- The ray-casting loop of `findSectorAtPoint`: toggle `inside` for
each boundary line whose span crosses the horizontal ray.  The division
is guarded by `(line.y1 > y) !== (line.y2 > y)`, which forces
`y1 ≠ y2`. -/
def insideSector (x y : ℚ) (ls : List (ℚ × ℚ × ℚ × ℚ)) : Bool :=
  ls.foldl
    (fun inside line =>
      let x1 := line.1
      let y1 := line.2.1
      let x2 := line.2.2.1
      let y2 := line.2.2.2
      if decide (y < y1) != decide (y < y2) then
        let intersectX := (x2 - x1) * (y - y1) / (y2 - y1) + x1
        if x < intersectX then !inside else inside
      else inside)
    false

/-- The outer sector loop of `findSectorAtPoint`. -/
def findSectorGo (md : MapDataM) (x y : ℚ) : List Nat → Int
  | [] => -1
  | i :: rest =>
    let ls := sectorLinesFor md i
    if 0 < ls.length && insideSector x y ls then (i : Int)
    else findSectorGo md x y rest

/-- `findSectorAtPoint`: first sector (in index order) whose boundary
lines are nonempty and contain the point; `-1` when none does. -/
def findSectorAtPoint (x y : ℚ) (md : MapDataM) : Int :=
  findSectorGo md x y (List.range md.sectors.length)

/-- `updateFloorCeiling`: refresh the cached floor/ceiling heights from
the sector containing the current position; leave them on failure. -/
def updateFloorCeiling (m : Mobj) (md : MapDataM) : Mobj :=
  let sectorIdx := findSectorAtPoint (FixedToFloat m.x) (FixedToFloat m.y) md
  if 0 ≤ sectorIdx then
    let sector := md.sectors.getD sectorIdx.toNat
      { floorheight := 0, ceilingheight := 0, tag := 0 }
    { m with floorz := FloatToFixed sector.floorheight,
             ceilingz := FloatToFixed sector.ceilingheight }
  else
    m

/-- `applyCollision` (the floor/ceiling-tracking version): full move,
then the step-height check, else the X-only and Y-only retries, zeroing
momentum when both fail. -/
def applyCollision (m : Mobj) (md : MapDataM) : Mobj :=
  let newX := m.x + m.momx
  let newY := m.y + m.momy
  if checkWallCollision m newX newY md then
    let m2 := updateFloorCeiling { m with x := newX, y := newY } md
    let stepHeight := FixedToFloat m2.floorz - FixedToFloat m2.z
    if 0 < stepHeight ∧ stepHeight ≤ MAX_STEP_HEIGHT then
      { m2 with z := m2.floorz }
    else if stepHeight ≤ 0 then
      m2
    else
      updateFloorCeiling
        { m2 with x := m2.x - m2.momx, y := m2.y - m2.momy, momx := 0, momy := 0 } md
  else
    let newXonly := m.x + m.momx
    let mA :=
      if checkWallCollision m newXonly m.y md then
        updateFloorCeiling { m with x := newXonly } md
      else m
    let newYonly := mA.y + mA.momy
    let mB :=
      if checkWallCollision mA mA.x newYonly md then
        updateFloorCeiling { mA with y := newYonly } md
      else mA
    if !checkWallCollision mB newXonly mB.y md && !checkWallCollision mB mB.x newYonly md then
      { mB with momx := 0, momy := 0 }
    else
      mB

theorem uFC_x (m : Mobj) (md : MapDataM) : (updateFloorCeiling m md).x = m.x := by
  unfold updateFloorCeiling
  by_cases h : 0 ≤ findSectorAtPoint (FixedToFloat m.x) (FixedToFloat m.y) md <;>
    simp [h]

theorem uFC_y (m : Mobj) (md : MapDataM) : (updateFloorCeiling m md).y = m.y := by
  unfold updateFloorCeiling
  by_cases h : 0 ≤ findSectorAtPoint (FixedToFloat m.x) (FixedToFloat m.y) md <;>
    simp [h]

theorem uFC_momx (m : Mobj) (md : MapDataM) :
    (updateFloorCeiling m md).momx = m.momx := by
  unfold updateFloorCeiling
  by_cases h : 0 ≤ findSectorAtPoint (FixedToFloat m.x) (FixedToFloat m.y) md <;>
    simp [h]

theorem uFC_momy (m : Mobj) (md : MapDataM) :
    (updateFloorCeiling m md).momy = m.momy := by
  unfold updateFloorCeiling
  by_cases h : 0 ≤ findSectorAtPoint (FixedToFloat m.x) (FixedToFloat m.y) md <;>
    simp [h]

end CollisionM

open CollisionM

/-- C6: (a) if the full x/y move is blocked and both the X-only and the
Y-only retries are blocked as well, `applyCollision` leaves the x and y
position unchanged and zeroes both horizontal momentum components;
(b) with zero horizontal momentum the x/y position never changes — in
particular an entity whose bounding circle already touches a blocking
segment, given zero momentum, stays at the same position (no jitter). -/
theorem applyCollision_blocked_or_idle (m : Mobj) (md : MapDataM) :
    (checkWallCollision m (m.x + m.momx) (m.y + m.momy) md = false →
      checkWallCollision m (m.x + m.momx) m.y md = false →
      checkWallCollision m m.x (m.y + m.momy) md = false →
      (applyCollision m md).x = m.x ∧ (applyCollision m md).y = m.y ∧
        (applyCollision m md).momx = 0 ∧ (applyCollision m md).momy = 0) ∧
    (m.momx = 0 → m.momy = 0 →
      (applyCollision m md).x = m.x ∧ (applyCollision m md).y = m.y) := by
  constructor
  · intro hFull hX hY
    simp [applyCollision, hFull, hX, hY]
  · intro hmx hmy
    unfold applyCollision
    simp only [hmx, hmy, Int.add_zero]
    split
    · refine ⟨?_, ?_⟩ <;> (split <;> try split) <;>
        simp [uFC_x, uFC_y, uFC_momx, uFC_momy, hmx, hmy]
    · rename_i hc
      simp [hc, hmx, hmy]

/-- A one-linedef map: a one-sided blocking wall from `(0, -16)` to
`(0, 16)`. -/
def c6Map : MapDataM :=
  { vertexes := [(0, -16), (0, 16)],
    linedefs := [{ v1 := 0, v2 := 1, flags := 0, special := 0, tag := 0,
                   sidenum0 := 0, sidenum1 := -1 }],
    sidedefs := [{ sector := 0 }],
    sectors := [{ floorheight := 0, ceilingheight := 128, tag := 0 }] }

/-- An entity of radius 16 at `(8, 0)` map units (overlapping the wall)
with zero momentum. -/
def c6Mobj : Mobj :=
  { x := 524288, y := 0, z := 0, momx := 0, momy := 0, momz := 0,
    radius := 1048576, height := 3670016, floorz := 0, ceilingz := 8388608 }

theorem c6_check_core : checkWallCollision c6Mobj 524288 0 c6Map = false := by
  norm_num [checkWallCollision, c6Mobj, c6Map, circleLineIntersection,
    FixedToFloat, FRACUNIT, FRACBITS, ML_BLOCKING, ML_TWOSIDED]

/-- C6 witness: the overlapping entity of `c6Mobj`/`c6Map` has all three
movement attempts blocked, and `applyCollision` leaves it in place with
zero momentum. -/
theorem applyCollision_blocked_or_idle_concrete :
    (applyCollision c6Mobj c6Map).x = c6Mobj.x ∧
      (applyCollision c6Mobj c6Map).y = c6Mobj.y ∧
      (applyCollision c6Mobj c6Map).momx = 0 ∧
      (applyCollision c6Mobj c6Map).momy = 0 :=
  (applyCollision_blocked_or_idle c6Mobj c6Map).1
    (by simpa [c6Mobj] using c6_check_core)
    (by simpa [c6Mobj] using c6_check_core)
    (by simpa [c6Mobj] using c6_check_core)

/-! ## `src/game/TriggerSystem.ts` (in Pickups.ts) — line specials -/

namespace TriggerM

open CollisionM

inductive ActivationType where
  | USE | WALK | SHOOT | PUSH
  deriving DecidableEq, Repr

/-- The state owned by `TriggerSystem` and the two sector-machine
managers it drives: the level's sectors and linedefs (read-only here),
the per-sector door and platform maps, and the once-only
`activatedLines` set. -/
structure TriggerState where
  sectors : List SectorH
  lines : List LineDefM
  doors : Nat → Option DoorM.DoorThinker
  plats : Nat → Option PlatM.PlatformThinker
  activated : Nat → Bool

/-- `DoorManager.activateDoor` on the full state: reject when the sector
is missing or already has an active door, else install the new door. -/
def activateDoorAt (st : TriggerState) (i : Nat) (t : DoorM.DoorType) :
    Bool × TriggerState :=
  match st.sectors.get? i with
  | none => (false, st)
  | some sec =>
    let r := DoorM.activateDoor sec (st.doors i) t
    (r.1,
      if r.1 then
        { st with doors := fun j => if j = i then r.2.2 else st.doors j }
      else st)

/-- `PlatformManager.activatePlatform` on the full state (the trigger
system always passes the default speed 1). -/
def activatePlatAt (st : TriggerState) (i : Nat) (t : PlatM.PlatformType) :
    Bool × TriggerState :=
  match st.sectors.get? i with
  | none => (false, st)
  | some sec =>
    let r := PlatM.activatePlatform sec (st.plats i) t 1
    (r.1,
      if r.1 then
        { st with plats := fun j => if j = i then r.2.2 else st.plats j }
      else st)

/-- One iteration of `activateDoorByTag`'s sector loop. -/
def doorTagStep (tag : Int) (t : DoorM.DoorType)
    (acc : Bool × TriggerState) (i : Nat) : Bool × TriggerState :=
  match acc.2.sectors.get? i with
  | some sec =>
    if sec.tag = tag then
      let r := activateDoorAt acc.2 i t
      (acc.1 || r.1, r.2)
    else acc
  | none => acc

/-- `activateDoorByTag`: activate a door in every sector carrying the
tag; true iff at least one activation succeeded. Tag 0 is rejected. -/
def activateDoorByTag (st : TriggerState) (tag : Int) (t : DoorM.DoorType) :
    Bool × TriggerState :=
  if tag = 0 then (false, st)
  else (List.range st.sectors.length).foldl (doorTagStep tag t) (false, st)

/-- One iteration of `activatePlatformByTag`'s sector loop. -/
def platTagStep (tag : Int) (t : PlatM.PlatformType)
    (acc : Bool × TriggerState) (i : Nat) : Bool × TriggerState :=
  match acc.2.sectors.get? i with
  | some sec =>
    if sec.tag = tag then
      let r := activatePlatAt acc.2 i t
      (acc.1 || r.1, r.2)
    else acc
  | none => acc

/-- `activatePlatformByTag`. -/
def activatePlatformByTag (st : TriggerState) (tag : Int)
    (t : PlatM.PlatformType) : Bool × TriggerState :=
  if tag = 0 then (false, st)
  else (List.range st.sectors.length).foldl (platTagStep tag t) (false, st)

/-- `checkActivationType`: walk-class codes 2/3/4/10/88, use-class codes
1 (DR) and 61/62/63/42/87 (SR). -/
def checkActivationType (special : Int) (act : ActivationType) : Bool :=
  if special = 1 then decide (act = ActivationType.USE)
  else if special = 2 ∨ special = 3 ∨ special = 4 ∨ special = 10 ∨ special = 88 then
    decide (act = ActivationType.WALK)
  else if special = 61 ∨ special = 62 ∨ special = 63 ∨ special = 42 ∨ special = 87 then
    decide (act = ActivationType.USE)
  else false

/-- `isOnceOnly`: the W1 codes 2, 3, 4, 10. -/
def isOnceOnly (special : Int) : Bool :=
  decide (special = 2 ∨ special = 3 ∨ special = 4 ∨ special = 10)

/-- `executeSpecial`: dispatch the special code to the tagged door or
platform activations; unhandled codes fail. -/
def executeSpecial (st : TriggerState) (line : LineDefM) : Bool × TriggerState :=
  let special := line.special
  if special = 1 ∨ special = 4 ∨ special = 63 then
    activateDoorByTag st line.tag DoorM.DoorType.NORMAL
  else if special = 2 ∨ special = 61 then
    activateDoorByTag st line.tag DoorM.DoorType.OPEN_STAY
  else if special = 3 ∨ special = 42 then
    activateDoorByTag st line.tag DoorM.DoorType.CLOSE
  else if special = 62 ∨ special = 88 ∨ special = 10 then
    activatePlatformByTag st line.tag PlatM.PlatformType.LOWER_AND_WAIT
  else if special = 87 then
    activatePlatformByTag st line.tag PlatM.PlatformType.PERPETUAL_RAISE
  else (false, st)

/-- `TriggerSystem.activateLine`. -/
def activateLine (st : TriggerState) (lineIndex : Nat) (act : ActivationType) :
    Bool × TriggerState :=
  match st.lines.get? lineIndex with
  | none => (false, st)
  | some line =>
    if line.special = 0 then (false, st)
    else if ¬ checkActivationType line.special act then (false, st)
    else if isOnceOnly line.special && st.activated lineIndex then (false, st)
    else
      let r := executeSpecial st line
      (r.1,
        if r.1 && isOnceOnly line.special then
          { r.2 with activated := fun j => if j = lineIndex then true else r.2.activated j }
        else r.2)

/-- An arbitrary later call sequence against the trigger system. -/
def runCalls (st : TriggerState) : List (Nat × ActivationType) → TriggerState
  | [] => st
  | c :: rest => runCalls (activateLine st c.1 c.2).2 rest

/-- "At least one tagged sector accepted the activation": between `st`
and `st2` some sector carrying the tag went from having no door (resp.
platform) machine to having one. -/
def sectorAccepted (st st2 : TriggerState) (tag : Int) : Prop :=
  ∃ i sec, st.sectors.get? i = some sec ∧ sec.tag = tag ∧
    ((st.doors i = none ∧ (st2.doors i).isSome = true) ∨
      (st.plats i = none ∧ (st2.plats i).isSome = true))

end TriggerM

namespace TriggerM

theorem activateDoorAt_spec (st : TriggerState) (i : Nat) (t : DoorM.DoorType) :
    ((activateDoorAt st i t).2.sectors = st.sectors ∧
      (activateDoorAt st i t).2.lines = st.lines ∧
      (activateDoorAt st i t).2.activated = st.activated ∧
      (activateDoorAt st i t).2.plats = st.plats) ∧
    (∀ j, (activateDoorAt st i t).2.doors j = none → st.doors j = none) ∧
    ((activateDoorAt st i t).1 = true →
      ∃ sec, st.sectors.get? i = some sec ∧ st.doors i = none ∧
        ((activateDoorAt st i t).2.doors i).isSome = true) := by
  unfold activateDoorAt
  cases hg : st.sectors.get? i with
  | none => simp
  | some sec =>
    cases hd : st.doors i with
    | some d =>
      simp [DoorM.activateDoor, hd]
    | none =>
      simp only [DoorM.activateDoor, hd]
      refine ⟨by simp, ?_, ?_⟩
      · intro j hj
        by_cases hji : j = i
        · subst hji
          simp at hj
        · simpa [hji] using hj
      · intro _
        exact ⟨sec, by simp, by simp, by simp⟩

theorem activatePlatAt_spec (st : TriggerState) (i : Nat) (t : PlatM.PlatformType) :
    ((activatePlatAt st i t).2.sectors = st.sectors ∧
      (activatePlatAt st i t).2.lines = st.lines ∧
      (activatePlatAt st i t).2.activated = st.activated ∧
      (activatePlatAt st i t).2.doors = st.doors) ∧
    (∀ j, (activatePlatAt st i t).2.plats j = none → st.plats j = none) ∧
    ((activatePlatAt st i t).1 = true →
      ∃ sec, st.sectors.get? i = some sec ∧ st.plats i = none ∧
        ((activatePlatAt st i t).2.plats i).isSome = true) := by
  unfold activatePlatAt
  cases hg : st.sectors.get? i with
  | none => simp
  | some sec =>
    cases hd : st.plats i with
    | some d =>
      simp [PlatM.activatePlatform, hd]
    | none =>
      simp only [PlatM.activatePlatform, hd]
      refine ⟨by simp, ?_, ?_⟩
      · intro j hj
        by_cases hji : j = i
        · subst hji
          simp at hj
        · simpa [hji] using hj
      · intro _
        exact ⟨sec, by simp, by simp, by simp⟩

theorem doorTagStep_spec (tag : Int) (t : DoorM.DoorType)
    (acc : Bool × TriggerState) (i : Nat) :
    ((doorTagStep tag t acc i).2.sectors = acc.2.sectors ∧
      (doorTagStep tag t acc i).2.lines = acc.2.lines ∧
      (doorTagStep tag t acc i).2.activated = acc.2.activated ∧
      (doorTagStep tag t acc i).2.plats = acc.2.plats) ∧
    (∀ j, (doorTagStep tag t acc i).2.doors j = none → acc.2.doors j = none) ∧
    ((doorTagStep tag t acc i).1 = true → acc.1 = true ∨
      ∃ k sec, acc.2.sectors.get? k = some sec ∧ sec.tag = tag ∧
        acc.2.doors k = none ∧ ((doorTagStep tag t acc i).2.doors k).isSome = true) := by
  unfold doorTagStep
  cases hg : acc.2.sectors.get? i with
  | none => exact ⟨⟨rfl, rfl, rfl, rfl⟩, fun j h => h, fun h => Or.inl h⟩
  | some sec =>
    by_cases htag : sec.tag = tag
    · simp only [htag, if_true]
      have h := activateDoorAt_spec acc.2 i t
      refine ⟨h.1, h.2.1, ?_⟩
      intro hsucc
      rcases Bool.or_eq_true_iff.mp hsucc with h1 | h2
      · exact Or.inl h1
      · obtain ⟨sec2, hsec2, hnone, hsome⟩ := h.2.2 h2
        exact Or.inr ⟨i, sec2, hsec2, by rw [hsec2] at hg; cases hg; exact htag,
          hnone, hsome⟩
    · dsimp only
      rw [if_neg htag]
      exact ⟨⟨rfl, rfl, rfl, rfl⟩, fun j h => h, fun h => Or.inl h⟩

theorem platTagStep_spec (tag : Int) (t : PlatM.PlatformType)
    (acc : Bool × TriggerState) (i : Nat) :
    ((platTagStep tag t acc i).2.sectors = acc.2.sectors ∧
      (platTagStep tag t acc i).2.lines = acc.2.lines ∧
      (platTagStep tag t acc i).2.activated = acc.2.activated ∧
      (platTagStep tag t acc i).2.doors = acc.2.doors) ∧
    (∀ j, (platTagStep tag t acc i).2.plats j = none → acc.2.plats j = none) ∧
    ((platTagStep tag t acc i).1 = true → acc.1 = true ∨
      ∃ k sec, acc.2.sectors.get? k = some sec ∧ sec.tag = tag ∧
        acc.2.plats k = none ∧ ((platTagStep tag t acc i).2.plats k).isSome = true) := by
  unfold platTagStep
  cases hg : acc.2.sectors.get? i with
  | none => exact ⟨⟨rfl, rfl, rfl, rfl⟩, fun j h => h, fun h => Or.inl h⟩
  | some sec =>
    by_cases htag : sec.tag = tag
    · simp only [htag, if_true]
      have h := activatePlatAt_spec acc.2 i t
      refine ⟨h.1, h.2.1, ?_⟩
      intro hsucc
      rcases Bool.or_eq_true_iff.mp hsucc with h1 | h2
      · exact Or.inl h1
      · obtain ⟨sec2, hsec2, hnone, hsome⟩ := h.2.2 h2
        exact Or.inr ⟨i, sec2, hsec2, by rw [hsec2] at hg; cases hg; exact htag,
          hnone, hsome⟩
    · dsimp only
      rw [if_neg htag]
      exact ⟨⟨rfl, rfl, rfl, rfl⟩, fun j h => h, fun h => Or.inl h⟩

theorem doorFold_spec (tag : Int) (t : DoorM.DoorType) :
    ∀ (l : List Nat) (acc : Bool × TriggerState),
    ((l.foldl (doorTagStep tag t) acc).2.sectors = acc.2.sectors ∧
      (l.foldl (doorTagStep tag t) acc).2.lines = acc.2.lines ∧
      (l.foldl (doorTagStep tag t) acc).2.activated = acc.2.activated ∧
      (l.foldl (doorTagStep tag t) acc).2.plats = acc.2.plats) ∧
    (∀ j, (l.foldl (doorTagStep tag t) acc).2.doors j = none → acc.2.doors j = none) ∧
    ((l.foldl (doorTagStep tag t) acc).1 = true → acc.1 = true ∨
      ∃ k sec, acc.2.sectors.get? k = some sec ∧ sec.tag = tag ∧
        acc.2.doors k = none ∧
        ((l.foldl (doorTagStep tag t) acc).2.doors k).isSome = true) := by
  intro l
  induction l with
  | nil => intro acc; exact ⟨⟨rfl, rfl, rfl, rfl⟩, fun j h => h, fun h => Or.inl h⟩
  | cons i rest ih =>
    intro acc
    rw [List.foldl_cons]
    have hstep := doorTagStep_spec tag t acc i
    have hrest := ih (doorTagStep tag t acc i)
    obtain ⟨⟨rs, rl, ra, rp⟩, rmono, rsucc⟩ := hrest
    obtain ⟨⟨ss, sl, sa, sp⟩, smono, ssucc⟩ := hstep
    refine ⟨⟨by rw [rs, ss], by rw [rl, sl], by rw [ra, sa], by rw [rp, sp]⟩, ?_, ?_⟩
    · intro j hj
      exact smono j (rmono j hj)
    · intro hsucc
      rcases rsucc hsucc with h1 | ⟨k, sec, hsec, htag, hnone, hsome⟩
      · rcases ssucc h1 with h2 | ⟨k, sec, hsec, htag, hnone, hsome⟩
        · exact Or.inl h2
        · refine Or.inr ⟨k, sec, hsec, htag, hnone, ?_⟩
          cases hfin : (rest.foldl (doorTagStep tag t) (doorTagStep tag t acc i)).2.doors k with
          | none =>
            rw [Option.isSome_iff_exists] at hsome
            obtain ⟨d, hd⟩ := hsome
            rw [rmono k hfin] at hd
            exact absurd hd (by simp)
          | some d => simp
      · exact Or.inr ⟨k, sec, by rw [ss] at hsec; exact hsec, htag,
          smono k hnone, hsome⟩
  
end TriggerM

namespace TriggerM

theorem platFold_spec (tag : Int) (t : PlatM.PlatformType) :
    ∀ (l : List Nat) (acc : Bool × TriggerState),
    ((l.foldl (platTagStep tag t) acc).2.sectors = acc.2.sectors ∧
      (l.foldl (platTagStep tag t) acc).2.lines = acc.2.lines ∧
      (l.foldl (platTagStep tag t) acc).2.activated = acc.2.activated ∧
      (l.foldl (platTagStep tag t) acc).2.doors = acc.2.doors) ∧
    (∀ j, (l.foldl (platTagStep tag t) acc).2.plats j = none → acc.2.plats j = none) ∧
    ((l.foldl (platTagStep tag t) acc).1 = true → acc.1 = true ∨
      ∃ k sec, acc.2.sectors.get? k = some sec ∧ sec.tag = tag ∧
        acc.2.plats k = none ∧
        ((l.foldl (platTagStep tag t) acc).2.plats k).isSome = true) := by
  intro l
  induction l with
  | nil => intro acc; exact ⟨⟨rfl, rfl, rfl, rfl⟩, fun j h => h, fun h => Or.inl h⟩
  | cons i rest ih =>
    intro acc
    rw [List.foldl_cons]
    have hstep := platTagStep_spec tag t acc i
    have hrest := ih (platTagStep tag t acc i)
    obtain ⟨⟨rs, rl, ra, rp⟩, rmono, rsucc⟩ := hrest
    obtain ⟨⟨ss, sl, sa, sp⟩, smono, ssucc⟩ := hstep
    refine ⟨⟨by rw [rs, ss], by rw [rl, sl], by rw [ra, sa], by rw [rp, sp]⟩, ?_, ?_⟩
    · intro j hj
      exact smono j (rmono j hj)
    · intro hsucc
      rcases rsucc hsucc with h1 | ⟨k, sec, hsec, htag, hnone, hsome⟩
      · rcases ssucc h1 with h2 | ⟨k, sec, hsec, htag, hnone, hsome⟩
        · exact Or.inl h2
        · refine Or.inr ⟨k, sec, hsec, htag, hnone, ?_⟩
          cases hfin : (rest.foldl (platTagStep tag t) (platTagStep tag t acc i)).2.plats k with
          | none =>
            rw [Option.isSome_iff_exists] at hsome
            obtain ⟨d, hd⟩ := hsome
            rw [rmono k hfin] at hd
            exact absurd hd (by simp)
          | some d => simp
      · exact Or.inr ⟨k, sec, by rw [ss] at hsec; exact hsec, htag,
          smono k hnone, hsome⟩

theorem activateDoorByTag_spec (st : TriggerState) (tag : Int) (t : DoorM.DoorType) :
    ((activateDoorByTag st tag t).2.sectors = st.sectors ∧
      (activateDoorByTag st tag t).2.lines = st.lines ∧
      (activateDoorByTag st tag t).2.activated = st.activated ∧
      (activateDoorByTag st tag t).2.plats = st.plats) ∧
    ((activateDoorByTag st tag t).1 = true →
      ∃ k sec, st.sectors.get? k = some sec ∧ sec.tag = tag ∧
        st.doors k = none ∧
        ((activateDoorByTag st tag t).2.doors k).isSome = true) := by
  unfold activateDoorByTag
  by_cases h0 : tag = 0
  · simp [h0]
  · rw [if_neg h0]
    have h := doorFold_spec tag t (List.range st.sectors.length) (false, st)
    refine ⟨h.1, ?_⟩
    intro hsucc
    rcases h.2.2 hsucc with h1 | h2
    · exact absurd h1 (by simp)
    · exact h2

theorem activatePlatformByTag_spec (st : TriggerState) (tag : Int)
    (t : PlatM.PlatformType) :
    ((activatePlatformByTag st tag t).2.sectors = st.sectors ∧
      (activatePlatformByTag st tag t).2.lines = st.lines ∧
      (activatePlatformByTag st tag t).2.activated = st.activated ∧
      (activatePlatformByTag st tag t).2.doors = st.doors) ∧
    ((activatePlatformByTag st tag t).1 = true →
      ∃ k sec, st.sectors.get? k = some sec ∧ sec.tag = tag ∧
        st.plats k = none ∧
        ((activatePlatformByTag st tag t).2.plats k).isSome = true) := by
  unfold activatePlatformByTag
  by_cases h0 : tag = 0
  · simp [h0]
  · rw [if_neg h0]
    have h := platFold_spec tag t (List.range st.sectors.length) (false, st)
    refine ⟨h.1, ?_⟩
    intro hsucc
    rcases h.2.2 hsucc with h1 | h2
    · exact absurd h1 (by simp)
    · exact h2

theorem executeSpecial_spec (st : TriggerState) (line : LineDefM) :
    ((executeSpecial st line).2.sectors = st.sectors ∧
      (executeSpecial st line).2.lines = st.lines ∧
      (executeSpecial st line).2.activated = st.activated) ∧
    ((executeSpecial st line).1 = true →
      sectorAccepted st (executeSpecial st line).2 line.tag) := by
  unfold executeSpecial
  dsimp only
  split
  · have h := activateDoorByTag_spec st line.tag DoorM.DoorType.NORMAL
    exact ⟨⟨h.1.1, h.1.2.1, h.1.2.2.1⟩, fun hs => by
      obtain ⟨k, sec, a, b, c, d⟩ := h.2 hs
      exact ⟨k, sec, a, b, Or.inl ⟨c, d⟩⟩⟩
  · split
    · have h := activateDoorByTag_spec st line.tag DoorM.DoorType.OPEN_STAY
      exact ⟨⟨h.1.1, h.1.2.1, h.1.2.2.1⟩, fun hs => by
        obtain ⟨k, sec, a, b, c, d⟩ := h.2 hs
        exact ⟨k, sec, a, b, Or.inl ⟨c, d⟩⟩⟩
    · split
      · have h := activateDoorByTag_spec st line.tag DoorM.DoorType.CLOSE
        exact ⟨⟨h.1.1, h.1.2.1, h.1.2.2.1⟩, fun hs => by
          obtain ⟨k, sec, a, b, c, d⟩ := h.2 hs
          exact ⟨k, sec, a, b, Or.inl ⟨c, d⟩⟩⟩
      · split
        · have h := activatePlatformByTag_spec st line.tag
            PlatM.PlatformType.LOWER_AND_WAIT
          exact ⟨⟨h.1.1, h.1.2.1, h.1.2.2.1⟩, fun hs => by
            obtain ⟨k, sec, a, b, c, d⟩ := h.2 hs
            exact ⟨k, sec, a, b, Or.inr ⟨c, d⟩⟩⟩
        · split
          · have h := activatePlatformByTag_spec st line.tag
              PlatM.PlatformType.PERPETUAL_RAISE
            exact ⟨⟨h.1.1, h.1.2.1, h.1.2.2.1⟩, fun hs => by
              obtain ⟨k, sec, a, b, c, d⟩ := h.2 hs
              exact ⟨k, sec, a, b, Or.inr ⟨c, d⟩⟩⟩
          · exact ⟨⟨rfl, rfl, rfl⟩, fun hs => absurd hs (by simp)⟩

end TriggerM


namespace TriggerM

theorem activateLine_frame (st : TriggerState) (li : Nat) (act : ActivationType) :
    (activateLine st li act).2.sectors = st.sectors ∧
    (activateLine st li act).2.lines = st.lines ∧
    (∀ j, st.activated j = true → (activateLine st li act).2.activated j = true) := by
  unfold activateLine
  cases hg : st.lines.get? li with
  | none => exact ⟨rfl, rfl, fun j h => h⟩
  | some line =>
    dsimp only
    by_cases h1 : line.special = 0
    · rw [if_pos h1]
      exact ⟨rfl, rfl, fun j h => h⟩
    · rw [if_neg h1]
      by_cases h2 : ¬ checkActivationType line.special act
      · rw [if_pos h2]
        exact ⟨rfl, rfl, fun j h => h⟩
      · rw [if_neg h2]
        have h := executeSpecial_spec st line
        by_cases h3 : (isOnceOnly line.special && st.activated li) = true
        · rw [if_pos h3]
          exact ⟨rfl, rfl, fun j hj => hj⟩
        · rw [if_neg h3]
          by_cases h4 :
              ((executeSpecial st line).1 && isOnceOnly line.special) = true
          · rw [if_pos h4]
            refine ⟨h.1.1, h.1.2.1, fun j hj => ?_⟩
            show (if j = li then true else (executeSpecial st line).2.activated j) = true
            split
            · rfl
            · rw [h.1.2.2]; exact hj
          · rw [if_neg h4]
            exact ⟨h.1.1, h.1.2.1, fun j hj => by rw [h.1.2.2]; exact hj⟩

theorem activateLine_blocked {st : TriggerState} {li : Nat} {line : LineDefM}
    (hline : st.lines.get? li = some line)
    (honce : isOnceOnly line.special = true)
    (hact : st.activated li = true) (act : ActivationType) :
    activateLine st li act = (false, st) := by
  unfold activateLine
  rw [hline]
  dsimp only
  by_cases h1 : line.special = 0
  · rw [if_pos h1]
  · rw [if_neg h1]
    by_cases h2 : ¬ checkActivationType line.special act
    · rw [if_pos h2]
    · rw [if_neg h2, if_pos (by rw [honce, hact]; rfl)]

theorem activateLine_marks {st : TriggerState} {li : Nat} {line : LineDefM}
    (hline : st.lines.get? li = some line)
    (honce : isOnceOnly line.special = true) (act : ActivationType)
    (hsucc : (activateLine st li act).1 = true) :
    (activateLine st li act).2.activated li = true := by
  unfold activateLine at hsucc ⊢
  rw [hline] at hsucc ⊢
  dsimp only at hsucc ⊢
  by_cases h1 : line.special = 0
  · rw [if_pos h1] at hsucc
    exact absurd hsucc (by simp)
  · rw [if_neg h1] at hsucc ⊢
    by_cases h2 : ¬ checkActivationType line.special act
    · rw [if_pos h2] at hsucc
      exact absurd hsucc (by simp)
    · rw [if_neg h2] at hsucc ⊢
      by_cases h3 : (isOnceOnly line.special && st.activated li) = true
      · rw [if_pos h3] at hsucc
        exact absurd hsucc (by simp)
      · rw [if_neg h3] at hsucc ⊢
        dsimp only at hsucc
        rw [if_pos (by rw [hsucc, honce]; rfl)]
        simp

theorem activateLine_recorded_only_if {st : TriggerState} {li : Nat} {line : LineDefM}
    (hline : st.lines.get? li = some line) (act : ActivationType)
    (hnew : (activateLine st li act).2.activated li = true)
    (hold : st.activated li = false) :
    (activateLine st li act).1 = true ∧
      sectorAccepted st (activateLine st li act).2 line.tag := by
  unfold activateLine at hnew ⊢
  rw [hline] at hnew ⊢
  dsimp only at hnew ⊢
  by_cases h1 : line.special = 0
  · rw [if_pos h1] at hnew
    rw [hnew] at hold
    exact absurd hold (by simp)
  · rw [if_neg h1] at hnew ⊢
    by_cases h2 : ¬ checkActivationType line.special act
    · rw [if_pos h2] at hnew
      rw [hnew] at hold
      exact absurd hold (by simp)
    · rw [if_neg h2] at hnew ⊢
      by_cases h3 : (isOnceOnly line.special && st.activated li) = true
      · rw [if_pos h3] at hnew
        rw [hnew] at hold
        exact absurd hold (by simp)
      · rw [if_neg h3] at hnew ⊢
        have h := executeSpecial_spec st line
        by_cases h4 :
            ((executeSpecial st line).1 && isOnceOnly line.special) = true
        · refine ⟨(Bool.and_eq_true _ _ |>.mp h4).1, ?_⟩
          dsimp only
          rw [if_pos h4]
          exact h.2 (Bool.and_eq_true _ _ |>.mp h4).1
        · rw [if_neg h4] at hnew
          dsimp only at hnew
          rw [h.1.2.2] at hnew
          rw [hnew] at hold
          exact absurd hold (by simp)

theorem runCalls_keeps (calls : List (Nat × ActivationType)) :
    ∀ (st : TriggerState) (li : Nat),
      (runCalls st calls).lines = st.lines ∧
      (st.activated li = true → (runCalls st calls).activated li = true) := by
  induction calls with
  | nil => exact fun st li => ⟨rfl, fun h => h⟩
  | cons c rest ih =>
    intro st li
    have hstep := activateLine_frame st c.1 c.2
    have hrest := ih (activateLine st c.1 c.2).2 li
    exact ⟨by rw [runCalls, hrest.1, hstep.2.1],
      fun h => by rw [runCalls]; exact hrest.2 (hstep.2.2 li h)⟩

end TriggerM

open TriggerM

/-- C7: for a linedef whose special is once-only, activation succeeds at
most once. (i) A line already in the once-only activated set is rejected
outright — the call returns `false` and leaves the state untouched, no
matter how the rest of the world looks. (ii) After any successful
activation the line is recorded, and every later call on the same line
— after an arbitrary sequence of other trigger calls — returns `false`.
(iii) The line enters the once-only set only when the call succeeded,
and success implies at least one sector carrying the line's tag accepted
a new door or platform machine. The statement quantifies over every
activation kind, hence in particular over `use`. -/
theorem onceOnly_line_fires_at_most_once (st : TriggerState) (li : Nat)
    (line : LineDefM) (hline : st.lines.get? li = some line)
    (honce : isOnceOnly line.special = true) :
    (st.activated li = true → ∀ act, activateLine st li act = (false, st)) ∧
    (∀ act, (activateLine st li act).1 = true →
      ∀ calls act2,
        (activateLine (runCalls (activateLine st li act).2 calls) li act2).1
          = false) ∧
    (∀ act, (activateLine st li act).2.activated li = true →
      st.activated li = false →
      (activateLine st li act).1 = true ∧
        sectorAccepted st (activateLine st li act).2 line.tag) := by
  refine ⟨fun hact act => activateLine_blocked hline honce hact act,
    fun act hsucc calls act2 => ?_,
    fun act => activateLine_recorded_only_if hline act⟩
  have hmark := activateLine_marks hline honce act hsucc
  have hframe := activateLine_frame st li act
  have hrun := runCalls_keeps calls (activateLine st li act).2 li
  have hline2 : (runCalls (activateLine st li act).2 calls).lines.get? li
      = some line := by
    rw [hrun.1, hframe.2.1, hline]
  have hact2 : (runCalls (activateLine st li act).2 calls).activated li = true :=
    hrun.2 hmark
  rw [activateLine_blocked hline2 honce hact2 act2]

/-- A walk-once door line (special 4, W1 Door Open Wait Close) tagged 9. -/
def c7Line : LineDefM :=
  { v1 := 0, v2 := 1, flags := 0, special := 4, tag := 9,
    sidenum0 := 0, sidenum1 := -1 }

/-- A fresh level state with one sector tagged 9 and the single line
`c7Line`. -/
def c7State : TriggerState :=
  { sectors := [{ floorheight := 0, ceilingheight := 0, tag := 9 }],
    lines := [c7Line],
    doors := fun _ => none,
    plats := fun _ => none,
    activated := fun _ => false }

/-- C7 witness: `onceOnly_line_fires_at_most_once` applied to the
concrete once-only line `c7Line` in `c7State`. -/
theorem onceOnly_line_fires_at_most_once_concrete :
    (c7State.activated 0 = true → ∀ act, activateLine c7State 0 act = (false, c7State)) ∧
    (∀ act, (activateLine c7State 0 act).1 = true →
      ∀ calls act2,
        (activateLine (runCalls (activateLine c7State 0 act).2 calls) 0 act2).1
          = false) ∧
    (∀ act, (activateLine c7State 0 act).2.activated 0 = true →
      c7State.activated 0 = false →
      (activateLine c7State 0 act).1 = true ∧
        sectorAccepted c7State (activateLine c7State 0 act).2 c7Line.tag) :=
  onceOnly_line_fires_at_most_once c7State 0 c7Line rfl (by decide)

/-! ## `src/renderer/BSPRenderer.ts` (part_001) — BSP traversal -/

namespace BspM

/-- `NF_SUBSECTOR = 0x8000`: child indices with this bit set denote
subsectors. -/
def NF_SUBSECTOR : Nat := 32768

/-- `MapNode` restricted to the fields `traverseNode` reads (the
bounding boxes are unused). Children are parsed `Uint16` values. -/
structure BspNode where
  x : Int
  y : Int
  dx : Int
  dy : Int
  child0 : Nat
  child1 : Nat
  deriving DecidableEq, Repr

/-- `node.children[side]`. -/
def childAt (n : BspNode) (side : Nat) : Nat :=
  if side = 0 then n.child0 else n.child1

/-- `pointOnSide`: the sign of the 2D cross product
`(x - node.x) * node.dy - (y - node.y) * node.dx`; `≤ 0` selects side 0
(front), else side 1 (back). -/
def pointOnSide (x y : ℚ) (n : BspNode) : Nat :=
  let dx := x - (n.x : ℚ)
  let dy := y - (n.y : ℚ)
  let cross := dx * (n.dy : ℚ) - dy * (n.dx : ℚ)
  if cross ≤ 0 then 0 else 1

/-- `traverseNode`, returning the sequence of `visibleSubsectors.add`
calls.  `nodeIndex & ~NF_SUBSECTOR` is the 32-bit mask `0xFFFF7FFF`.
The TS recursion is unbounded; `fuel` bounds the depth, and under the
well-formedness used below (internal children strictly decrease) depth
`nodes.length + 1` reproduces it exactly. An out-of-range node index
(`get?` returning `none`) is the warned no-op. -/
def traverseNode (nodes : List BspNode) (numSub : Nat) (x y : ℚ) :
    Nat → Nat → List Nat
  | 0, _ => []
  | fuel + 1, nodeIndex =>
    if nodeIndex &&& NF_SUBSECTOR ≠ 0 then
      let subsectorIndex := nodeIndex &&& 4294934527
      if subsectorIndex < numSub then [subsectorIndex] else []
    else
      match nodes.get? nodeIndex with
      | none => []
      | some node =>
        let side := pointOnSide x y node
        traverseNode nodes numSub x y fuel (childAt node side) ++
          traverseNode nodes numSub x y fuel (childAt node (side ^^^ 1))

/-- `getVisibleSubsectors`: with no BSP nodes every subsector is
visible; otherwise traverse from the root (the last node). -/
def getVisibleSubsectors (nodes : List BspNode) (numSub : Nat) (x y : ℚ) :
    List Nat :=
  if nodes.length = 0 then List.range numSub
  else traverseNode nodes numSub x y (nodes.length + 1) (nodes.length - 1)

/-- The leaf sequence of the tree under a node, in child order — the
point-independent shape of the traversal. -/
def nodeLeaves (nodes : List BspNode) : Nat → Nat → List Nat
  | 0, _ => []
  | fuel + 1, nodeIndex =>
    if nodeIndex &&& NF_SUBSECTOR ≠ 0 then
      [nodeIndex &&& 4294934527]
    else
      match nodes.get? nodeIndex with
      | none => []
      | some node =>
        nodeLeaves nodes fuel node.child0 ++ nodeLeaves nodes fuel node.child1

/-- Well-formed DOOM node arrays: every internal child reference points
to a strictly smaller node index (so the recursion terminates). -/
def WfBsp (nodes : List BspNode) : Prop :=
  ∀ i node, nodes.get? i = some node →
    (node.child0 &&& NF_SUBSECTOR ≠ 0 ∨ node.child0 < i) ∧
    (node.child1 &&& NF_SUBSECTOR ≠ 0 ∨ node.child1 < i)

theorem pointOnSide_cases (x y : ℚ) (n : BspNode) :
    pointOnSide x y n = 0 ∨ pointOnSide x y n = 1 := by
  unfold pointOnSide
  dsimp only
  split
  · exact Or.inl rfl
  · exact Or.inr rfl

theorem traverse_count (nodes : List BspNode) (numSub : Nat) (x y : ℚ) :
    ∀ fuel idx z, z < numSub →
      (traverseNode nodes numSub x y fuel idx).count z
        = (nodeLeaves nodes fuel idx).count z := by
  intro fuel
  induction fuel with
  | zero => intro idx z _; rfl
  | succ f ih =>
    intro idx z hz
    unfold traverseNode nodeLeaves
    by_cases hleaf : idx &&& NF_SUBSECTOR ≠ 0
    · rw [if_pos hleaf, if_pos hleaf]
      by_cases hs : idx &&& 4294934527 < numSub
      · rw [if_pos hs]
      · rw [if_neg hs]
        have hzne : ¬ (idx &&& 4294934527) = z := by omega
        simp [List.count_cons, hzne]
    · rw [if_neg hleaf, if_neg hleaf]
      cases hg : nodes.get? idx with
      | none => rfl
      | some node =>
        dsimp only
        rw [List.count_append, List.count_append]
        rcases pointOnSide_cases x y node with h0 | h1
        · rw [h0]
          show (traverseNode nodes numSub x y f (childAt node 0)).count z +
              (traverseNode nodes numSub x y f (childAt node (0 ^^^ 1))).count z = _
          rw [show (0 ^^^ 1 : Nat) = 1 from rfl]
          unfold childAt
          rw [if_pos rfl, if_neg (by norm_num)]
          rw [ih node.child0 z hz, ih node.child1 z hz]
        · rw [h1]
          show (traverseNode nodes numSub x y f (childAt node 1)).count z +
              (traverseNode nodes numSub x y f (childAt node (1 ^^^ 1))).count z = _
          rw [show (1 ^^^ 1 : Nat) = 0 from rfl]
          unfold childAt
          rw [if_pos rfl, if_neg (by norm_num)]
          rw [ih node.child0 z hz, ih node.child1 z hz]
          exact Nat.add_comm _ _

end BspM

open BspM

/-- C5: for every query point and every well-formed node array whose
leaf sequence is exactly the `numSub` subsectors (each exactly once),
the traversal from the root adds every one of the `numSub` leaves to the
result exactly once; and at each internal node it recurses into the
near child first — side 0 when the cross product is `≤ 0`, else side 1 —
and into the far child (`side ^ 1`) second. -/
theorem bsp_visits_each_leaf_once (nodes : List BspNode) (numSub : Nat)
    (x y : ℚ) (hne : nodes ≠ []) (hwf : WfBsp nodes)
    (hperm : (nodeLeaves nodes (nodes.length + 1) (nodes.length - 1)).Perm
      (List.range numSub)) :
    (∀ z, z < numSub → (getVisibleSubsectors nodes numSub x y).count z = 1) ∧
    (∀ fuel idx node, nodes.get? idx = some node →
      idx &&& NF_SUBSECTOR = 0 →
      traverseNode nodes numSub x y (fuel + 1) idx =
        traverseNode nodes numSub x y fuel
          (childAt node
            (if (x - (node.x : ℚ)) * (node.dy : ℚ)
                - (y - (node.y : ℚ)) * (node.dx : ℚ) ≤ 0 then 0 else 1)) ++
          traverseNode nodes numSub x y fuel
            (childAt node
              ((if (x - (node.x : ℚ)) * (node.dy : ℚ)
                  - (y - (node.y : ℚ)) * (node.dx : ℚ) ≤ 0 then 0 else 1) ^^^ 1))) := by
  constructor
  · intro z hz
    unfold getVisibleSubsectors
    rw [if_neg (by simpa using hne)]
    rw [traverse_count nodes numSub x y (nodes.length + 1) (nodes.length - 1) z hz]
    rw [hperm.count_eq z]
    exact List.count_eq_one_of_mem (List.nodup_range numSub) (List.mem_range.mpr hz)
  · intro fuel idx node hg hnl
    show (if idx &&& NF_SUBSECTOR ≠ 0 then _ else _) = _
    rw [if_neg (by simp [hnl]), hg]
    rfl

/-- A one-node tree whose children are the leaf-tagged subsectors 0 and 1. -/
def c5Node : BspNode :=
  { x := 0, y := 0, dx := 0, dy := 1, child0 := 32768, child1 := 32769 }

/-- C5 witness: `bsp_visits_each_leaf_once` on the concrete one-node,
two-leaf tree at the query point `(0, 0)`. -/
theorem bsp_visits_each_leaf_once_concrete :
    (∀ z, z < 2 → (getVisibleSubsectors [c5Node] 2 0 0).count z = 1) ∧
    (∀ fuel idx node, [c5Node].get? idx = some node →
      idx &&& NF_SUBSECTOR = 0 →
      traverseNode [c5Node] 2 0 0 (fuel + 1) idx =
        traverseNode [c5Node] 2 0 0 fuel
          (childAt node
            (if ((0 : ℚ) - (node.x : ℚ)) * (node.dy : ℚ)
                - ((0 : ℚ) - (node.y : ℚ)) * (node.dx : ℚ) ≤ 0 then 0 else 1)) ++
          traverseNode [c5Node] 2 0 0 fuel
            (childAt node
              ((if ((0 : ℚ) - (node.x : ℚ)) * (node.dy : ℚ)
                  - ((0 : ℚ) - (node.y : ℚ)) * (node.dx : ℚ) ≤ 0 then 0 else 1) ^^^ 1))) :=
  bsp_visits_each_leaf_once [c5Node] 2 0 0 (by simp)
    (by
      intro i node hg
      match i, hg with
      | 0, hg =>
        cases hg
        exact ⟨Or.inl (by decide), Or.inl (by decide)⟩)
    (by decide)

/-! ## `src/game/Thinker.ts` — thinker scheduler

The doubly linked list is embedded as a heap of `prev`/`next` fields
indexed by node id (ids are registration order, `0, 1, …, k-1`), plus
`head`/`tail`. The `live` field is bookkeeping the TS code keeps
implicitly (membership in the list): `removeThinker` clears it, and the
correctness statement refers to it. A behavior is modelled by the
removal it performs during its think call — `none`, itself, or another
entry — which is the shape of behavior the claim quantifies over. -/

namespace ThinkerM

structure TState where
  next : Nat → Option Nat
  prev : Nat → Option Nat
  head : Option Nat
  tail : Option Nat
  live : Nat → Bool

/-- `ThinkerManager.removeThinker`: splice the node's neighbours
together (`prev.next = next` or `head = next`; `next.prev = prev` or
`tail = prev`), reading the node's own fields as the TS statements do;
the node's own `prev`/`next` stay untouched (stale). Finally mark it
dead. -/
def removeThinker (s : TState) (t : Nat) : TState :=
  let s1 :=
    match s.prev t with
    | some p => { s with next := fun u => if u = p then s.next t else s.next u }
    | none => { s with head := s.next t }
  let s2 :=
    match s1.next t with
    | some n => { s1 with prev := fun u => if u = n then s1.prev t else s1.prev u }
    | none => { s1 with tail := s1.prev t }
  { s2 with live := fun u => if u = t then false else s2.live u }

/-- The loop of `ThinkerManager.runThinkers`: capture `next` before the
think call, run the behavior (at most one removal), continue at the
captured node.  Returns the final state, the visit sequence (the order
of think calls), and a flag recording that every removal target was
live (registered) when removed — the claim's premise. `fuel` bounds the
iteration; `k` steps suffice from a well-formed `k`-node list. -/
def runLoop (b : Nat → Option Nat) : Nat → TState → Option Nat →
    TState × List Nat × Bool
  | 0, s, _ => (s, [], true)
  | _ + 1, s, none => (s, [], true)
  | fuel + 1, s, some c =>
    let captured := s.next c
    let ok1 := match b c with | some r => s.live r | none => true
    let s1 := match b c with | some r => removeThinker s r | none => s
    let rest := runLoop b fuel s1 captured
    (rest.1, c :: rest.2.1, ok1 && rest.2.2)

/-- The list state after registering thinkers `0, …, k-1` in order with
`addThinker`. -/
def initialState (k : Nat) : TState :=
  { next := fun u => if u + 1 < k then some (u + 1) else none,
    prev := fun u => if u = 0 ∨ k ≤ u then none else some (u - 1),
    head := if k = 0 then none else some 0,
    tail := if k = 0 then none else some (k - 1),
    live := fun u => decide (u < k) }

/-- `runThinkers` on the freshly built `k`-entry list. -/
def runThinkers (b : Nat → Option Nat) (k : Nat) :
    TState × List Nat × Bool :=
  runLoop b k (initialState k) (initialState k).head

/-- The state invariant maintained during a pass: node ids increase
along `next` (`n1`), no live node is skipped between a node and its
`next` target (`n2`, `n3` — also for stale nodes, whose pointers are
frozen at removal time), live nodes point to live nodes (`n4`) and form
a consistent doubly linked list (`n6`, `p1`, `p2`, `p6`), and live
nodes are among the registered ids (`l0`). -/
structure Inv (k : Nat) (s : TState) : Prop where
  l0 : ∀ x, s.live x = true → x < k
  n1 : ∀ x y, s.next x = some y → x < y ∧ y < k
  n2 : ∀ x y z, s.next x = some y → x < z → z < y → s.live z = false
  n3 : ∀ x z, s.next x = none → x < z → s.live z = false
  n4 : ∀ x y, s.live x = true → s.next x = some y → s.live y = true
  n6 : ∀ x y, s.live x = true → s.next x = some y → s.prev y = some x
  p1 : ∀ x p, s.live x = true → s.prev x = some p →
    p < x ∧ s.live p = true ∧ ∀ z, p < z → z < x → s.live z = false
  p2 : ∀ x, s.live x = true → s.prev x = none → ∀ z, z < x → s.live z = false
  p6 : ∀ x p, s.live x = true → s.prev x = some p → s.next p = some x

theorem remove_live (s : TState) (t : Nat) :
    ∀ u, (removeThinker s t).live u = if u = t then false else s.live u := by
  intro u
  unfold removeThinker
  cases s.prev t <;> cases hn : s.next t <;> simp [hn]

theorem remove_next (s : TState) (t : Nat) :
    ∀ u, (removeThinker s t).next u =
      match s.prev t with
      | some p => if u = p then s.next t else s.next u
      | none => s.next u := by
  intro u
  unfold removeThinker
  cases s.prev t <;> cases hn : s.next t <;> simp [hn] <;> split <;> rfl

theorem remove_prev (s : TState) (t : Nat) (hpt : s.prev t ≠ some t) :
    ∀ u, (removeThinker s t).prev u =
      match s.next t with
      | some n => if u = n then s.prev t else s.prev u
      | none => s.prev u := by
  intro u
  unfold removeThinker
  cases hp : s.prev t with
  | none => cases hn : s.next t <;> simp [hn, hp]
  | some p =>
    have hne : p ≠ t := fun h => hpt (h ▸ hp)
    cases hn : s.next t <;> simp [hn, hp]

end ThinkerM

namespace ThinkerM

theorem remove_next_none (s : TState) (t : Nat) (hp : s.prev t = none) :
    ∀ u, (removeThinker s t).next u = s.next u := by
  intro u
  have h := remove_next s t u
  rw [hp] at h
  exact h

theorem remove_next_some (s : TState) (t p : Nat) (hp : s.prev t = some p) :
    ∀ u, (removeThinker s t).next u = if u = p then s.next t else s.next u := by
  intro u
  have h := remove_next s t u
  rw [hp] at h
  exact h

theorem remove_prev_none (s : TState) (t : Nat) (hpt : s.prev t ≠ some t)
    (hn : s.next t = none) :
    ∀ u, (removeThinker s t).prev u = s.prev u := by
  intro u
  have h := remove_prev s t hpt u
  rw [hn] at h
  exact h

theorem remove_prev_some (s : TState) (t n : Nat) (hpt : s.prev t ≠ some t)
    (hn : s.next t = some n) :
    ∀ u, (removeThinker s t).prev u = if u = n then s.prev t else s.prev u := by
  intro u
  have h := remove_prev s t hpt u
  rw [hn] at h
  exact h

theorem removeThinker_inv {k : Nat} {s : TState} {t : Nat}
    (hInv : Inv k s) (ht : s.live t = true) :
    Inv k (removeThinker s t) := by
  have hpt : s.prev t ≠ some t := by
    intro h
    exact absurd (hInv.p1 t t ht h).1 (lt_irrefl t)
  have hlive := remove_live s t
  have liveNe : ∀ z, z ≠ t → (removeThinker s t).live z = s.live z := by
    intro z hz
    rw [hlive z, if_neg hz]
  have liveT : (removeThinker s t).live t = false := by
    rw [hlive t, if_pos rfl]
  have liveDown : ∀ z, (removeThinker s t).live z = true → s.live z = true ∧ z ≠ t := by
    intro z hz
    by_cases hzt : z = t
    · rw [hzt, liveT] at hz
      exact absurd hz (by simp)
    · rw [liveNe z hzt] at hz
      exact ⟨hz, hzt⟩
  have liveFalse : ∀ z, s.live z = false → (removeThinker s t).live z = false := by
    intro z hz
    by_cases hzt : z = t
    · rw [hzt]; exact liveT
    · rw [liveNe z hzt]; exact hz
  refine ⟨?_, ?_, ?_, ?_, ?_, ?_, ?_, ?_, ?_⟩
  · -- l0
    intro x hx
    exact hInv.l0 x (liveDown x hx).1
  · -- n1
    intro x y hxy
    cases hp : s.prev t with
    | none =>
      rw [remove_next_none s t hp x] at hxy
      exact hInv.n1 x y hxy
    | some p =>
      rw [remove_next_some s t p hp x] at hxy
      by_cases hxp : x = p
      · rw [if_pos hxp] at hxy
        have h1 := (hInv.p1 t p ht hp).1
        have h2 := hInv.n1 t y hxy
        omega
      · rw [if_neg hxp] at hxy
        exact hInv.n1 x y hxy
  · -- n2
    intro x y z hxy hxz hzy
    by_cases hzt : z = t
    · rw [hzt]; exact liveT
    · rw [liveNe z hzt]
      cases hp : s.prev t with
      | none =>
        rw [remove_next_none s t hp x] at hxy
        exact hInv.n2 x y z hxy hxz hzy
      | some p =>
        rw [remove_next_some s t p hp x] at hxy
        by_cases hxp : x = p
        · rw [if_pos hxp] at hxy
          have hp1 := hInv.p1 t p ht hp
          rcases Nat.lt_or_ge z t with hz1 | hz2
          · exact hp1.2.2 z (by omega) hz1
          · exact hInv.n2 t y z hxy (by omega) hzy
        · rw [if_neg hxp] at hxy
          exact hInv.n2 x y z hxy hxz hzy
  · -- n3
    intro x z hx hxz
    by_cases hzt : z = t
    · rw [hzt]; exact liveT
    · rw [liveNe z hzt]
      cases hp : s.prev t with
      | none =>
        rw [remove_next_none s t hp x] at hx
        exact hInv.n3 x z hx hxz
      | some p =>
        rw [remove_next_some s t p hp x] at hx
        by_cases hxp : x = p
        · rw [if_pos hxp] at hx
          have hp1 := hInv.p1 t p ht hp
          rcases Nat.lt_or_ge z t with hz1 | hz2
          · exact hp1.2.2 z (by omega) hz1
          · exact hInv.n3 t z hx (by omega)
        · rw [if_neg hxp] at hx
          exact hInv.n3 x z hx hxz
  · -- n4
    intro x y hx hxy
    obtain ⟨hxl, hxt⟩ := liveDown x hx
    cases hp : s.prev t with
    | none =>
      rw [remove_next_none s t hp x] at hxy
      have hyt : y ≠ t := by
        intro h
        have h6 := hInv.n6 x y hxl hxy
        rw [h, hp] at h6
        exact absurd h6 (by simp)
      rw [liveNe y hyt]
      exact hInv.n4 x y hxl hxy
    | some p =>
      rw [remove_next_some s t p hp x] at hxy
      by_cases hxp : x = p
      · rw [if_pos hxp] at hxy
        have hyt : y ≠ t := by
          have := hInv.n1 t y hxy
          omega
        rw [liveNe y hyt]
        exact hInv.n4 t y ht hxy
      · rw [if_neg hxp] at hxy
        have hyt : y ≠ t := by
          intro h
          have h6 := hInv.n6 x y hxl hxy
          rw [h, hp] at h6
          cases h6
          exact hxp rfl
        rw [liveNe y hyt]
        exact hInv.n4 x y hxl hxy
  · -- n6
    intro x y hx hxy
    obtain ⟨hxl, hxt⟩ := liveDown x hx
    cases hp : s.prev t with
    | none =>
      rw [remove_next_none s t hp x] at hxy
      have hyt : y ≠ t := by
        intro h
        have h6 := hInv.n6 x y hxl hxy
        rw [h, hp] at h6
        exact absurd h6 (by simp)
      cases hn : s.next t with
      | none =>
        rw [remove_prev_none s t hpt hn y]
        exact hInv.n6 x y hxl hxy
      | some n =>
        rw [remove_prev_some s t n hpt hn y]
        by_cases hyn : y = n
        · exfalso
          have h1 := hInv.n6 x y hxl hxy
          have h2 := hInv.n6 t n ht hn
          rw [hyn] at h1
          rw [h1] at h2
          cases h2
          exact hxt rfl
        · rw [if_neg hyn]
          exact hInv.n6 x y hxl hxy
    | some p =>
      rw [remove_next_some s t p hp x] at hxy
      by_cases hxp : x = p
      · rw [if_pos hxp] at hxy
        cases hn : s.next t with
        | none =>
          rw [hn] at hxy
          exact absurd hxy (by simp)
        | some n =>
          rw [hn] at hxy
          cases hxy
          rw [remove_prev_some s t y hpt hn y, if_pos rfl, hp, hxp]
      · rw [if_neg hxp] at hxy
        have hyt : y ≠ t := by
          intro h
          have h6 := hInv.n6 x y hxl hxy
          rw [h, hp] at h6
          cases h6
          exact hxp rfl
        cases hn : s.next t with
        | none =>
          rw [remove_prev_none s t hpt hn y]
          exact hInv.n6 x y hxl hxy
        | some n =>
          rw [remove_prev_some s t n hpt hn y]
          by_cases hyn : y = n
          · exfalso
            have h1 := hInv.n6 x y hxl hxy
            have h2 := hInv.n6 t n ht hn
            rw [hyn] at h1
            rw [h1] at h2
            cases h2
            exact hxt rfl
          · rw [if_neg hyn]
            exact hInv.n6 x y hxl hxy
  · -- p1
    intro x q hx hxq
    obtain ⟨hxl, hxt⟩ := liveDown x hx
    have wrap : q ≠ t → (q < x ∧ s.live q = true ∧
        ∀ z, q < z → z < x → s.live z = false) →
        q < x ∧ (removeThinker s t).live q = true ∧
          ∀ z, q < z → z < x → (removeThinker s t).live z = false := by
      intro hqt hold
      refine ⟨hold.1, by rw [liveNe q hqt]; exact hold.2.1, ?_⟩
      intro z hz1 hz2
      by_cases hzt : z = t
      · rw [hzt]; exact liveT
      · rw [liveNe z hzt]
        exact hold.2.2 z hz1 hz2
    cases hn : s.next t with
    | none =>
      rw [remove_prev_none s t hpt hn x] at hxq
      have hqt : q ≠ t := by
        intro h
        have h6 := hInv.p6 x q hxl hxq
        rw [h, hn] at h6
        exact absurd h6 (by simp)
      exact wrap hqt (hInv.p1 x q hxl hxq)
    | some n =>
      rw [remove_prev_some s t n hpt hn x] at hxq
      by_cases hxn : x = n
      · rw [if_pos hxn] at hxq
        subst hxn
        have hq := hInv.p1 t q ht hxq
        have hn1 := hInv.n1 t x hn
        refine ⟨by omega, by rw [liveNe q (by omega)]; exact hq.2.1, ?_⟩
        intro z hz1 hz2
        by_cases hzt : z = t
        · rw [hzt]; exact liveT
        · rw [liveNe z hzt]
          rcases Nat.lt_trichotomy z t with h1 | h1 | h1
          · exact hq.2.2 z hz1 h1
          · exact absurd h1 hzt
          · exact hInv.n2 t x z hn h1 hz2
      · rw [if_neg hxn] at hxq
        have hqt : q ≠ t := by
          intro h
          have h6 := hInv.p6 x q hxl hxq
          rw [h, hn] at h6
          cases h6
          exact hxn rfl
        exact wrap hqt (hInv.p1 x q hxl hxq)
  · -- p2
    intro x hx hxq
    obtain ⟨hxl, hxt⟩ := liveDown x hx
    have wrap : (∀ z, z < x → s.live z = false) →
        ∀ z, z < x → (removeThinker s t).live z = false := by
      intro hold z hz
      exact liveFalse z (hold z hz)
    cases hn : s.next t with
    | none =>
      rw [remove_prev_none s t hpt hn x] at hxq
      exact wrap (hInv.p2 x hxl hxq)
    | some n =>
      rw [remove_prev_some s t n hpt hn x] at hxq
      by_cases hxn : x = n
      · rw [if_pos hxn] at hxq
        intro z hz
        by_cases hzt : z = t
        · rw [hzt]; exact liveT
        · rw [liveNe z hzt]
          rcases Nat.lt_trichotomy z t with h1 | h1 | h1
          · exact hInv.p2 t ht hxq z h1
          · exact absurd h1 hzt
          · exact hInv.n2 t n z hn h1 (by omega)
      · rw [if_neg hxn] at hxq
        exact wrap (hInv.p2 x hxl hxq)
  · -- p6
    intro x q hx hxq
    obtain ⟨hxl, hxt⟩ := liveDown x hx
    cases hn : s.next t with
    | none =>
      rw [remove_prev_none s t hpt hn x] at hxq
      have hqt : q ≠ t := by
        intro h
        have h6 := hInv.p6 x q hxl hxq
        rw [h, hn] at h6
        exact absurd h6 (by simp)
      cases hp : s.prev t with
      | none =>
        rw [remove_next_none s t hp q]
        exact hInv.p6 x q hxl hxq
      | some p =>
        rw [remove_next_some s t p hp q]
        by_cases hqp : q = p
        · exfalso
          have h1 := hInv.p6 x q hxl hxq
          have h2 := hInv.p6 t p ht hp
          rw [hqp] at h1
          rw [h1] at h2
          cases h2
          exact hxt rfl
        · rw [if_neg hqp]
          exact hInv.p6 x q hxl hxq
    | some n =>
      rw [remove_prev_some s t n hpt hn x] at hxq
      by_cases hxn : x = n
      · rw [if_pos hxn] at hxq
        rw [remove_next_some s t q hxq q, if_pos rfl, hn, hxn]
      · rw [if_neg hxn] at hxq
        have hqt : q ≠ t := by
          intro h
          have h6 := hInv.p6 x q hxl hxq
          rw [h, hn] at h6
          cases h6
          exact hxn rfl
        cases hp : s.prev t with
        | none =>
          rw [remove_next_none s t hp q]
          exact hInv.p6 x q hxl hxq
        | some p =>
          rw [remove_next_some s t p hp q]
          by_cases hqp : q = p
          · exfalso
            have h1 := hInv.p6 x q hxl hxq
            have h2 := hInv.p6 t p ht hp
            rw [hqp] at h1
            rw [h1] at h2
            cases h2
            exact hxt rfl
          · rw [if_neg hqp]
            exact hInv.p6 x q hxl hxq

end ThinkerM

namespace ThinkerM

/-- The nodes a cursor can still reach all lie at or beyond it. -/
def Ahead : Option Nat → Nat → Prop
  | none, _ => False
  | some x, z => x ≤ z

theorem remove_live_mono (s : TState) (t z : Nat)
    (h : (removeThinker s t).live z = true) : s.live z = true := by
  rw [remove_live s t z] at h
  by_cases hzt : z = t
  · rw [if_pos hzt] at h
    exact absurd h (by simp)
  · rw [if_neg hzt] at h
    exact h

theorem runLoop_spec (b : Nat → Option Nat) (k : Nat) :
    ∀ (fuel : Nat) (s : TState) (c : Option Nat),
      Inv k s →
      (∀ x, c = some x → x < k ∧ k - x ≤ fuel) →
      (runLoop b fuel s c).2.2 = true →
      (∀ z, (runLoop b fuel s c).1.live z = true → Ahead c z →
        (runLoop b fuel s c).2.1.count z = 1) ∧
      (∀ z, z ∈ (runLoop b fuel s c).2.1 → Ahead c z) ∧
      (∀ z, (runLoop b fuel s c).1.live z = true → s.live z = true) := by
  intro fuel
  induction fuel with
  | zero =>
    intro s c hInv hc _
    refine ⟨?_, ?_, fun z h => h⟩
    · intro z _ hA
      cases c with
      | none => exact hA.elim
      | some x =>
        have := hc x rfl
        have hA' : x ≤ z := hA
        omega
    · intro z hz
      exact absurd hz (List.not_mem_nil z)
  | succ f ih =>
    intro s c hInv hc hok
    cases c with
    | none =>
      exact ⟨fun z _ hA => hA.elim,
        fun z hz => absurd hz (List.not_mem_nil z), fun z h => h⟩
    | some x =>
      obtain ⟨hxk, hfuel⟩ := hc x rfl
      cases hb : b x with
      | some r =>
        have hred : runLoop b (f + 1) s (some x) =
            ((runLoop b f (removeThinker s r) (s.next x)).1,
              x :: (runLoop b f (removeThinker s r) (s.next x)).2.1,
              s.live r && (runLoop b f (removeThinker s r) (s.next x)).2.2) := by
          simp only [runLoop, hb]
        rw [hred] at hok ⊢
        obtain ⟨hr, hrestok⟩ := Bool.and_eq_true_iff.mp hok
        have hInv1 := removeThinker_inv hInv hr
        have hc1 : ∀ y, s.next x = some y → y < k ∧ k - y ≤ f := by
          intro y hy
          have := hInv.n1 x y hy
          omega
        obtain ⟨iha, ihb, ihc⟩ := ih (removeThinker s r) (s.next x) hInv1 hc1 hrestok
        have hchain : ∀ z,
            (runLoop b f (removeThinker s r) (s.next x)).1.live z = true →
            s.live z = true := fun z hz => remove_live_mono s r z (ihc z hz)
        refine ⟨?_, ?_, hchain⟩
        · intro z hz hA
          rw [List.count_cons]
          by_cases hzx : z = x
          · have hnotmem : x ∉ (runLoop b f (removeThinker s r) (s.next x)).2.1 := by
              intro hmem
              have hAx := ihb x hmem
              cases hnx : s.next x with
              | none => rw [hnx] at hAx; exact hAx.elim
              | some nn =>
                rw [hnx] at hAx
                have : nn ≤ x := hAx
                have := hInv.n1 x nn hnx
                omega
            rw [hzx]
            rw [List.count_eq_zero.mpr hnotmem]
            simp
          · have hxz : x < z := by
              have hA' : x ≤ z := hA
              omega
            rw [if_neg (by simp only [beq_iff_eq]; omega)]
            cases hnx : s.next x with
            | none =>
              exfalso
              have := hInv.n3 x z hnx hxz
              rw [hchain z hz] at this
              exact absurd this (by simp)
            | some nn =>
              rcases Nat.lt_or_ge z nn with hzn | hzn
              · exfalso
                have := hInv.n2 x nn z hnx hxz hzn
                rw [hchain z hz] at this
                exact absurd this (by simp)
              · have := iha z hz (by rw [hnx]; exact hzn)
                rw [hnx] at this
                simpa using this
        · intro z hz
          rcases List.mem_cons.mp hz with h1 | h2
          · exact h1 ▸ Nat.le_refl x
          · have hAz := ihb z h2
            cases hnx : s.next x with
            | none => rw [hnx] at hAz; exact hAz.elim
            | some nn =>
              rw [hnx] at hAz
              have h1 : nn ≤ z := hAz
              have := hInv.n1 x nn hnx
              show x ≤ z
              omega
      | none =>
        have hred : runLoop b (f + 1) s (some x) =
            ((runLoop b f s (s.next x)).1,
              x :: (runLoop b f s (s.next x)).2.1,
              true && (runLoop b f s (s.next x)).2.2) := by
          simp only [runLoop, hb]
        rw [hred] at hok ⊢
        rw [Bool.true_and] at hok
        have hc1 : ∀ y, s.next x = some y → y < k ∧ k - y ≤ f := by
          intro y hy
          have := hInv.n1 x y hy
          omega
        obtain ⟨iha, ihb, ihc⟩ := ih s (s.next x) hInv hc1 hok
        refine ⟨?_, ?_, ihc⟩
        · intro z hz hA
          rw [List.count_cons]
          by_cases hzx : z = x
          · have hnotmem : x ∉ (runLoop b f s (s.next x)).2.1 := by
              intro hmem
              have hAx := ihb x hmem
              cases hnx : s.next x with
              | none => rw [hnx] at hAx; exact hAx.elim
              | some nn =>
                rw [hnx] at hAx
                have : nn ≤ x := hAx
                have := hInv.n1 x nn hnx
                omega
            rw [hzx]
            rw [List.count_eq_zero.mpr hnotmem]
            simp
          · have hxz : x < z := by
              have hA' : x ≤ z := hA
              omega
            rw [if_neg (by simp only [beq_iff_eq]; omega)]
            cases hnx : s.next x with
            | none =>
              exfalso
              have := hInv.n3 x z hnx hxz
              rw [ihc z hz] at this
              exact absurd this (by simp)
            | some nn =>
              rcases Nat.lt_or_ge z nn with hzn | hzn
              · exfalso
                have := hInv.n2 x nn z hnx hxz hzn
                rw [ihc z hz] at this
                exact absurd this (by simp)
              · have := iha z hz (by rw [hnx]; exact hzn)
                rw [hnx] at this
                simpa using this
        · intro z hz
          rcases List.mem_cons.mp hz with h1 | h2
          · exact h1 ▸ Nat.le_refl x
          · have hAz := ihb z h2
            cases hnx : s.next x with
            | none => rw [hnx] at hAz; exact hAz.elim
            | some nn =>
              rw [hnx] at hAz
              have h1 : nn ≤ z := hAz
              have := hInv.n1 x nn hnx
              show x ≤ z
              omega

end ThinkerM

namespace ThinkerM

theorem initialState_inv (k : Nat) : Inv k (initialState k) := by
  refine ⟨?_, ?_, ?_, ?_, ?_, ?_, ?_, ?_, ?_⟩
  · intro x hx
    simpa [initialState] using hx
  · intro x y h
    simp only [initialState] at h
    split at h
    · cases h; omega
    · simp at h
  · intro x y z h h1 h2
    simp only [initialState] at h
    split at h
    · cases h; exfalso; omega
    · simp at h
  · intro x z h hz
    simp only [initialState] at h ⊢
    split at h
    · simp at h
    · rename_i h1
      simp only [decide_eq_false_iff_not]
      omega
  · intro x y hx h
    simp only [initialState] at h ⊢
    split at h
    · rename_i h1
      cases h
      simp only [decide_eq_true_eq]
      omega
    · simp at h
  · intro x y hx h
    simp only [initialState] at h ⊢
    split at h
    · rename_i h1
      cases h
      rw [if_neg (by omega)]
      simp
    · simp at h
  · intro x p hx h
    simp only [initialState, decide_eq_true_eq] at hx
    simp only [initialState] at h
    split at h
    · simp at h
    · rename_i h1
      cases h
      refine ⟨by omega, ?_, ?_⟩
      · simp only [initialState, decide_eq_true_eq]
        omega
      · intro z hz1 hz2
        exfalso
        omega
  · intro x hx h z hz
    simp only [initialState, decide_eq_true_eq] at hx
    simp only [initialState] at h
    split at h
    · rename_i h1
      exfalso
      omega
    · simp at h
  · intro x p hx h
    simp only [initialState, decide_eq_true_eq] at hx
    simp only [initialState] at h ⊢
    split at h
    · simp at h
    · rename_i h1
      cases h
      have hx1 : x - 1 + 1 = x := by omega
      rw [if_pos (by omega), hx1]

end ThinkerM

open ThinkerM

/-- C4: during a single `runThinkers` pass over a `k`-entry thinker
list, where each visited entry's behavior may remove itself or any
other entry that is still registered at that moment (the `ok` flag of
the run records that every removal target was indeed live), every entry
that is still registered at the end of the pass has been visited exactly
once — none skipped, none visited twice. -/
theorem runThinkers_no_skip_no_double (k : Nat) (b : Nat → Option Nat)
    (hok : (runThinkers b k).2.2 = true) :
    ∀ z, (runThinkers b k).1.live z = true →
      (runThinkers b k).2.1.count z = 1 := by
  intro z hz
  by_cases hk : k = 0
  · exfalso
    subst hk
    simp [runThinkers, runLoop, initialState] at hz
  · have hc : ∀ x, (initialState k).head = some x → x < k ∧ k - x ≤ k := by
      intro x hx
      simp only [initialState] at hx
      rw [if_neg hk] at hx
      cases hx
      omega
    have h := runLoop_spec b k k (initialState k) (initialState k).head
      (initialState_inv k) hc hok
    refine h.1 z hz ?_
    show Ahead (initialState k).head z
    simp only [initialState]
    rw [if_neg hk]
    exact Nat.zero_le z

/-- The behavior used by the witness: entry 0 removes the
not-yet-visited entry 2, entry 1 removes itself, the rest remove
nothing. -/
def c4b : Nat → Option Nat
  | 0 => some 2
  | 1 => some 1
  | _ => none

/-- C4 witness: on a 4-entry list with behavior `c4b` the pass is
`[0, 1, 3]`, all removal targets were live, and the surviving entry 3
(like entry 0) was visited exactly once. -/
theorem runThinkers_no_skip_no_double_concrete :
    (runThinkers c4b 4).2.1.count 3 = 1 :=
  runThinkers_no_skip_no_double 4 c4b (by decide) 3 (by decide)
